import Mathlib

/-!
Shallow embedding of the semantic-analysis core of the glslang GLSL
front-end (glslang/MachineIndependent/ParseHelper.cpp) together with
proofs about the behaviour of its grammar handlers.

Enumerations, the qualifier record and the type record mirror the data
model used by `TParseContext`; functions are direct translations of the
member functions of `TParseContext`.  Helpers whose C++ definitions live
outside the provided source slice (Types.h, Versions.cpp, the
`TIntermediate` builder facade) are modelled from the specification and
say so in their doc comments.
-/

namespace Glslang


/-- Source location: `(string_index, line)`, as in `TSourceLoc`. -/
structure TSourceLoc where
  string : Nat
  line : Nat
deriving DecidableEq, Repr

/-- Basic type tags, as in `TBasicType`. -/
inductive TBasicType where
  | EbtVoid | EbtBool | EbtInt | EbtUint | EbtFloat | EbtDouble
  | EbtSampler | EbtStruct | EbtBlock | EbtAtomicCounter
deriving DecidableEq, Repr

/-- Storage qualifiers, as in `TStorageQualifier`. -/
inductive TStorageQualifier where
  | EvqTemporary | EvqGlobal | EvqConst | EvqConstReadOnly
  | EvqIn | EvqOut | EvqInOut
  | EvqVaryingIn | EvqVaryingOut | EvqUniform | EvqBuffer | EvqShared
  | EvqPointCoord | EvqVertexId | EvqInstanceId | EvqFragCoord | EvqFace
deriving DecidableEq, Repr, Fintype

/-- Precision qualifiers, as in `TPrecisionQualifier`. -/
inductive TPrecisionQualifier where
  | EpqNone | EpqLow | EpqMedium | EpqHigh
deriving DecidableEq, Repr

/-- Matrix layout qualifier values, as in `TLayoutMatrix`. -/
inductive TLayoutMatrix where
  | ElmNone | ElmRowMajor | ElmColumnMajor
deriving DecidableEq, Repr

/-- Packing layout qualifier values, as in `TLayoutPacking`. -/
inductive TLayoutPacking where
  | ElpNone | ElpShared | ElpPacked | ElpStd140 | ElpStd430
deriving DecidableEq, Repr

/-- Shader stages, as in `EShLanguage`. -/
inductive EShLanguage where
  | EShLangVertex | EShLangFragment | EShLangGeometry
  | EShLangTessControl | EShLangTessEvaluation | EShLangCompute
deriving DecidableEq, Repr

/-- Profiles, as in `EProfile`. -/
inductive EProfile where
  | ENoProfile | ECoreProfile | ECompatibilityProfile | EEsProfile
deriving DecidableEq, Repr

/-- A set of profiles, standing for the bit masks built from `EProfile`
values at the `requireProfile` / `profileRequires` call sites. -/
structure EProfileMask where
  noProf : Bool
  core : Bool
  compat : Bool
  es : Bool
deriving DecidableEq, Repr

/-- Membership of a profile in a profile mask. -/
def EProfile.inMask (p : EProfile) (m : EProfileMask) : Bool :=
  match p with
  | .ENoProfile => m.noProf
  | .ECoreProfile => m.core
  | .ECompatibilityProfile => m.compat
  | .EEsProfile => m.es

/-- The mask `~EEsProfile`. -/
def maskNotEs : EProfileMask := ⟨true, true, true, false⟩

/-- The mask `ECoreProfile | ECompatibilityProfile`. -/
def maskCoreCompat : EProfileMask := ⟨false, true, true, false⟩

/-- The mask `ENoProfile`. -/
def maskNoProfile : EProfileMask := ⟨true, false, false, false⟩

/-- The mask `EEsProfile`. -/
def maskEs : EProfileMask := ⟨false, false, false, true⟩

/-- Qualifier record, as in `TQualifier`: storage, precision, the boolean
singleton flags merged by `MERGE_SINGLETON`, and the layout fields.
Unset `location`/`binding` are the sentinel value in the source
(`layoutLocationEnd`/`layoutBindingEnd`); they are `none` here. -/
structure TQualifier where
  storage : TStorageQualifier
  precision : TPrecisionQualifier
  invariant : Bool
  centroid : Bool
  smooth : Bool
  flat : Bool
  nopersp : Bool
  patch : Bool
  sample : Bool
  shared : Bool
  coherent : Bool
  volatil : Bool
  restrict : Bool
  readonly : Bool
  writeonly : Bool
  layoutMatrix : TLayoutMatrix
  layoutPacking : TLayoutPacking
  layoutSlotLocation : Option Nat
  layoutBinding : Option Nat
deriving DecidableEq, Repr

/-- Modelled from the spec: an auxiliary qualifier is one of
centroid, patch, sample (see the duplicate-auxiliary diagnostic text in
`mergeQualifiers`). -/
def TQualifier.isAuxiliary (q : TQualifier) : Bool :=
  q.centroid || q.patch || q.sample

/-- Modelled from the spec: an interpolation qualifier is one of
flat, smooth, noperspective (see the duplicate-interpolation diagnostic
text in `mergeQualifiers`). -/
def TQualifier.isInterpolation (q : TQualifier) : Bool :=
  q.flat || q.smooth || q.nopersp

/-- Modelled from the spec: a location layout field is set when it is not
its sentinel value. -/
def TQualifier.hasLocation (q : TQualifier) : Bool :=
  q.layoutSlotLocation.isSome

/-- Modelled from the spec: a binding layout field is set when it is not
its sentinel value. -/
def TQualifier.hasBinding (q : TQualifier) : Bool :=
  q.layoutBinding.isSome

/-- Modelled from the spec: whether storage is the uniform class
(`TQualifier::isUniform`). -/
def TQualifier.isUniform (q : TQualifier) : Bool :=
  q.storage = .EvqUniform || q.storage = .EvqBuffer

/-- Modelled from the spec: pipeline-input storage classes
(`TQualifier::isPipeInput`). -/
def TQualifier.isPipeInput (q : TQualifier) : Bool :=
  q.storage = .EvqVaryingIn ||
  q.storage = .EvqFragCoord || q.storage = .EvqPointCoord ||
  q.storage = .EvqFace || q.storage = .EvqVertexId || q.storage = .EvqInstanceId

/-- Modelled from the spec: pipeline-output storage classes
(`TQualifier::isPipeOutput`). -/
def TQualifier.isPipeOutput (q : TQualifier) : Bool :=
  q.storage = .EvqVaryingOut

/-- A default (cleared) qualifier: temporary storage, no precision,
no flags, no layout. -/
def defaultQualifier : TQualifier :=
  { storage := .EvqTemporary
    precision := .EpqNone
    invariant := false, centroid := false, smooth := false, flat := false
    nopersp := false, patch := false, sample := false, shared := false
    coherent := false, volatil := false, restrict := false
    readonly := false, writeonly := false
    layoutMatrix := .ElmNone
    layoutPacking := .ElpNone
    layoutSlotLocation := none
    layoutBinding := none }

/-- Type record, as in `TType`.  `arraySizes = none` means the type is not
an array; `some 0` is an unsized (implicitly sized) array; `some n` with
`n > 0` a sized array.  Struct/block member types are in `fields`. -/
inductive TType where
  | mk (basicType : TBasicType) (qualifier : TQualifier)
       (vectorSize : Nat) (matrixCols : Nat) (matrixRows : Nat)
       (arraySizes : Option Nat) (maxArraySize : Nat)
       (fields : List TType)

/-- Basic type of a `TType`. -/
def TType.basicType : TType → TBasicType
  | .mk b _ _ _ _ _ _ _ => b

/-- Qualifier of a `TType`. -/
def TType.qualifier : TType → TQualifier
  | .mk _ q _ _ _ _ _ _ => q

/-- Vector size of a `TType`. -/
def TType.vectorSize : TType → Nat
  | .mk _ _ v _ _ _ _ _ => v

/-- Matrix column count of a `TType`. -/
def TType.matrixCols : TType → Nat
  | .mk _ _ _ c _ _ _ _ => c

/-- Matrix row count of a `TType`. -/
def TType.matrixRows : TType → Nat
  | .mk _ _ _ _ r _ _ _ => r

/-- Array size slot of a `TType`. -/
def TType.arraySizes : TType → Option Nat
  | .mk _ _ _ _ _ a _ _ => a

/-- Maximum implicitly observed array size of a `TType`. -/
def TType.maxArraySize : TType → Nat
  | .mk _ _ _ _ _ _ m _ => m

/-- Struct/block member types of a `TType`. -/
def TType.fields : TType → List TType
  | .mk _ _ _ _ _ _ _ f => f

/-- Whether the type is an array (`TType::isArray`). -/
def TType.isArray (t : TType) : Bool := t.arraySizes.isSome

/-- Declared array size; 0 both for unsized arrays and non-arrays
(`TType::getArraySize`). -/
def TType.getArraySize (t : TType) : Nat := t.arraySizes.getD 0

/-- Whether the type is a matrix (`TType::isMatrix`). -/
def TType.isMatrix (t : TType) : Bool := 0 < t.matrixCols

/-- Whether the type is a vector (`TType::isVector`). -/
def TType.isVector (t : TType) : Bool := 1 < t.vectorSize

/-- Whether the type is a scalar: not vector, matrix or array
(`TType::isScalar`). -/
def TType.isScalar (t : TType) : Bool :=
  !t.isVector && !t.isMatrix && !t.isArray

mutual

/-- Modelled from the spec (Types.h is outside the provided source):
`object_size` is the element count after flattening arrays, matrices and
vectors; struct/block types contribute the sum of their member sizes. -/
def TType.getObjectSize : TType → Nat
  | .mk b _ vs mc mr a _ flds =>
      (match a with
       | none => 1
       | some 0 => 1
       | some n => n) *
      (if b = .EbtStruct ∨ b = .EbtBlock then structObjectSize flds
       else if 0 < mc then mc * mr
       else vs)

/-- Sum of the object sizes of a list of member types. -/
def structObjectSize : List TType → Nat
  | [] => 0
  | t :: ts => TType.getObjectSize t + structObjectSize ts

end

/-- Kinds of diagnostics, one per reachable `error(...)` call site of the
embedded handlers (identified by the reason text at that call site). -/
inductive ErrKind where
  | nullShaderSourceString
  | illegalVectorFieldSelection
  | vectorFieldSelectionOutOfRange
  | vectorFieldsNotFromSameSet
  | leftOfBracketNotIndexable
  | indexOutOfRange
  | arrayIndexOutOfRange
  | arrayMustBeRedeclaredWithSize
  | profileRequired
  | versionRequired
  | stageRequired
  | variableNameExpected
  | undeclaredIdentifier
  | glPointCoordGate
  | arrayVariableNameExpected
  | cannotOffsetIntoVector
  | cannotOffsetIntoMatrix
  | cannotOffsetIntoArray
  | vectorIndexOutOfRange
  | matrixFieldSelectionOutOfRange
  | arrayIndexValueOutOfRange
  | onlyOneAuxiliary
  | onlyOneInterpolation
  | invariantQualifierFirst
  | interpolationQualifiersBeforeStoragePrecision
  | auxiliaryQualifiersBeforeStoragePrecision
  | precisionQualifierLast
  | inOutBeforeConst
  | tooManyStorageQualifiers
  | onlyOnePrecisionQualifier
  | replicatedQualifiers
  | arrayConstructorOneArgPerElement
  | constructingFromNonDereferencedArray
  | tooManyArguments
  | structConstructorArity
  | notEnoughDataForConstruction
  | constructorArgumentHasNoType
  | cannotConvertSampler
  | cannotConvertVoid
  | cannotConstructWithTheseArguments
  | inductiveLoopInitDeclarationForm
  | inductiveLoopScalarIndex
  | inductiveLoopConditionForm
  | inductiveLoopTerminationForm
  | statementsBeforeFirstCase
  | duplicateDefaultLabel
  | duplicatedCaseValue
  | switchConditionScalarInteger
  | lastCaseLabelNeedsStatements
  | lValueRequired
  | lValueSwizzleDuplicateComponents
  | methodAcceptsNoArguments
  | arrayMustBeSizedForLengthMethod
  | noMatchingOverloadedFunction
  | functionNameExpected
  | builtInUnaryOperatorType
  | constantPassedForOutParameter
  | textureGatherComponentRange
  | textureGatherComponentConstant
deriving DecidableEq, Repr

/-- An emitted error diagnostic: kind and location. -/
structure Diag where
  kind : ErrKind
  loc : TSourceLoc
deriving DecidableEq, Repr

/-- Modelled from the spec: `requireProfile(loc, mask, feature)` emits an
error when the current profile is not in the mask (Versions.cpp is
outside the provided source). -/
def requireProfile (loc : TSourceLoc) (profile : EProfile) (mask : EProfileMask) : List Diag :=
  if profile.inMask mask then [] else [⟨.profileRequired, loc⟩]

/-- Modelled from the spec: `profileRequires(loc, mask, minVersion, ext,
feature)` passes when the profile is outside the mask, the version meets
the minimum, or the extension is present; otherwise it emits an error. -/
def profileRequires (loc : TSourceLoc) (profile : EProfile) (mask : EProfileMask)
    (version : Nat) (minVersion : Nat) (extPresent : Bool) : List Diag :=
  if profile.inMask mask ∧ version < minVersion ∧ !extPresent then
    [⟨.versionRequired, loc⟩]
  else []

/-- A tagged scalar constant, as in `TConstUnion`. -/
inductive ConstValue where
  | iconst (i : Int)
  | uconst (u : Nat)
  | dconst (d : Rat)
  | bconst (b : Bool)
deriving DecidableEq, Repr

/-- Reading a constant as int (`TConstUnion::getIConst`); the embedded
handlers only ever apply this to `iconst` values. -/
def ConstValue.getIConst : ConstValue → Int
  | .iconst i => i
  | .uconst u => u
  | .bconst b => if b then 1 else 0
  | .dconst _ => 0

/-- Operators, as in `TOperator` (the subset used by the embedded
handlers). -/
inductive TOperator where
  | EOpNull
  | EOpSequence | EOpParameters | EOpFunctionCall
  | EOpIndexDirect | EOpIndexIndirect | EOpIndexDirectStruct
  | EOpVectorSwizzle
  | EOpAssign | EOpAddAssign | EOpSubAssign
  | EOpPostIncrement | EOpPostDecrement
  | EOpGreaterThan | EOpGreaterThanEqual | EOpLessThan | EOpLessThanEqual
  | EOpEqual | EOpNotEqual
  | EOpArrayLength
  | EOpConstructFloat | EOpConstructVec2 | EOpConstructVec3 | EOpConstructVec4
  | EOpConstructDouble | EOpConstructDVec2 | EOpConstructDVec3 | EOpConstructDVec4
  | EOpConstructInt | EOpConstructIVec2 | EOpConstructIVec3 | EOpConstructIVec4
  | EOpConstructUint | EOpConstructUVec2 | EOpConstructUVec3 | EOpConstructUVec4
  | EOpConstructBool | EOpConstructBVec2 | EOpConstructBVec3 | EOpConstructBVec4
  | EOpConstructMat2x2 | EOpConstructMat2x3 | EOpConstructMat2x4
  | EOpConstructMat3x2 | EOpConstructMat3x3 | EOpConstructMat3x4
  | EOpConstructMat4x2 | EOpConstructMat4x3 | EOpConstructMat4x4
  | EOpConstructDMat2x2 | EOpConstructDMat2x3 | EOpConstructDMat2x4
  | EOpConstructDMat3x2 | EOpConstructDMat3x3 | EOpConstructDMat3x4
  | EOpConstructDMat4x2 | EOpConstructDMat4x3 | EOpConstructDMat4x4
  | EOpConstructStruct
deriving DecidableEq, Repr

/-- HIR nodes, as the `TIntermNode` class hierarchy: symbol, constant,
binary, unary, aggregate, branch, switch and method nodes.  Typed nodes
carry their `TType`. -/
inductive TIntermNode where
  | symbol (id : Nat) (name : String) (ty : TType)
  | constantUnion (values : List ConstValue) (ty : TType)
  | binary (op : TOperator) (left : TIntermNode) (right : TIntermNode) (ty : TType)
  | unary (op : TOperator) (operand : TIntermNode) (ty : TType)
  | aggregate (op : TOperator) (seq : List TIntermNode) (ty : TType)
  | branch (expression : Option TIntermNode)
  | switchNode (expression : Option TIntermNode) (body : TIntermNode)
  | methodNode (base : TIntermNode) (name : String) (ty : TType)

/-- Void type with default qualifier (`TType(EbtVoid)`). -/
def voidType : TType := .mk .EbtVoid defaultQualifier 1 0 0 none 0 []

/-- Scalar float type with const storage
(`TType(EbtFloat, EvqConst)`), the type of recovery constants. -/
def floatConstType : TType :=
  .mk .EbtFloat { defaultQualifier with storage := .EvqConst } 1 0 0 none 0 []

/-- Type of a node (`TIntermTyped::getType`); branch and switch nodes are
untyped in the source and read as void here. -/
def TIntermNode.getType : TIntermNode → TType
  | .symbol _ _ ty => ty
  | .constantUnion _ ty => ty
  | .binary _ _ _ ty => ty
  | .unary _ _ ty => ty
  | .aggregate _ _ ty => ty
  | .methodNode _ _ ty => ty
  | .branch _ => voidType
  | .switchNode _ _ => voidType

/-- Down-cast to a symbol node (`getAsSymbolNode`). -/
def TIntermNode.getAsSymbolNode : TIntermNode → Option (Nat × String × TType)
  | .symbol id name ty => some (id, name, ty)
  | _ => none

/-- Down-cast to a constant-union node (`getAsConstantUnion`), giving its
value array. -/
def TIntermNode.getAsConstantUnion : TIntermNode → Option (List ConstValue)
  | .constantUnion vs _ => some vs
  | _ => none

/-- Down-cast to a binary node (`getAsBinaryNode`). -/
def TIntermNode.getAsBinaryNode : TIntermNode → Option (TOperator × TIntermNode × TIntermNode × TType)
  | .binary op l r ty => some (op, l, r, ty)
  | _ => none

/-- Down-cast to an aggregate node (`getAsAggregate`), giving op and
sequence. -/
def TIntermNode.getAsAggregate : TIntermNode → Option (TOperator × List TIntermNode)
  | .aggregate op seq _ => some (op, seq)
  | _ => none

/-- Down-cast to a branch node (`getAsBranchNode`). -/
def TIntermNode.getAsBranchNode : TIntermNode → Option (Option TIntermNode)
  | .branch e => some e
  | _ => none

/-- Whether the node can be viewed as `TIntermTyped` (`getAsTyped`);
branch and switch nodes cannot. -/
def TIntermNode.isTyped : TIntermNode → Bool
  | .branch _ => false
  | .switchNode _ _ => false
  | _ => true

/-- Qualifier of a node's type (`TIntermTyped::getQualifier`). -/
def TIntermNode.getQualifier (n : TIntermNode) : TQualifier := n.getType.qualifier

/-- Basic type of a node's type (`TIntermTyped::getBasicType`). -/
def TIntermNode.getBasicType (n : TIntermNode) : TBasicType := n.getType.basicType

/-- Whether the node's type is an array. -/
def TIntermNode.isArray (n : TIntermNode) : Bool := n.getType.isArray

/-- Whether the node's type is a matrix. -/
def TIntermNode.isMatrix (n : TIntermNode) : Bool := n.getType.isMatrix

/-- Whether the node's type is a vector. -/
def TIntermNode.isVector (n : TIntermNode) : Bool := n.getType.isVector

/-- First constant value of a constant-union node read as int: the
`getAsConstantUnion()->getConstArray()[0].getIConst()` idiom.  Defaults
to 0 for non-constant nodes (the source would dereference null there;
all theorems that rely on this value assume a constant node). -/
def TIntermNode.constIntValue (n : TIntermNode) : Int :=
  match n.getAsConstantUnion with
  | some (v :: _) => v.getIConst
  | _ => 0

/-! ## parseVectorFields -/

/-- The three swizzle alphabets, as the local enum of
`TParseContext::parseVectorFields`. -/
inductive FieldSet where
  | exyzw | ergba | estpq
deriving DecidableEq, Repr

/-- One step of the decoding switch in `parseVectorFields`: the lane
offset and alphabet of a swizzle character, or `none` for the `default`
branch. -/
def charField (c : Char) : Option (Nat × FieldSet) :=
  if c = 'x' then some (0, .exyzw)
  else if c = 'r' then some (0, .ergba)
  else if c = 's' then some (0, .estpq)
  else if c = 'y' then some (1, .exyzw)
  else if c = 'g' then some (1, .ergba)
  else if c = 't' then some (1, .estpq)
  else if c = 'z' then some (2, .exyzw)
  else if c = 'b' then some (2, .ergba)
  else if c = 'p' then some (2, .estpq)
  else if c = 'w' then some (3, .exyzw)
  else if c = 'a' then some (3, .ergba)
  else if c = 'q' then some (3, .estpq)
  else none

/-- The first loop of `parseVectorFields`: decode every character, or
fail at the first character hitting the `default` branch. -/
def decodeFields : List Char → Option (List (Nat × FieldSet))
  | [] => some []
  | c :: cs =>
    match charField c, decodeFields cs with
    | some p, some ps => some (p :: ps)
    | _, _ => none

/-- The second loop of `parseVectorFields`: each offset must be below the
vector size, and each alphabet must equal the previous one; returns the
kind of the first error, if any. -/
def fieldsRangeSetCheck (vecSize : Nat) (prev : Option FieldSet) :
    List (Nat × FieldSet) → Option ErrKind
  | [] => none
  | (off, s) :: rest =>
    if vecSize ≤ off then some .vectorFieldSelectionOutOfRange
    else
      match prev with
      | some p =>
        if s ≠ p then some .vectorFieldsNotFromSameSet
        else fieldsRangeSetCheck vecSize (some s) rest
      | none => fieldsRangeSetCheck vecSize (some s) rest

/-- `TParseContext::parseVectorFields`: turn a `.`-selector string into
lane offsets for a vector.  Returns the offsets on success (`true` in the
source, with `fields` filled in) or `none` plus one diagnostic on
failure. -/
def parseVectorFields (loc : TSourceLoc) (compString : List Char) (vecSize : Nat) :
    Option (List Nat) × List Diag :=
  if 4 < compString.length then
    (none, [⟨.illegalVectorFieldSelection, loc⟩])
  else
    match decodeFields compString with
    | none => (none, [⟨.illegalVectorFieldSelection, loc⟩])
    | some ps =>
      match fieldsRangeSetCheck vecSize none ps with
      | some k => (none, [⟨k, loc⟩])
      | none => (some (ps.map Prod.fst), [])

/-- The union of the three swizzle alphabets. -/
def swizzleChars : List Char :=
  ['x', 'r', 's', 'y', 'g', 't', 'z', 'b', 'p', 'w', 'a', 'q']

/-! ## mergeQualifiers -/

/-- The storage-qualification step of `TParseContext::mergeQualifiers`
(the if-chain at lines 1572-1581): the resulting storage and whether the
too-many-storage-qualifiers error fires. -/
def mergeStorage (dst src : TStorageQualifier) : TStorageQualifier × Bool :=
  if dst = .EvqTemporary ∨ dst = .EvqGlobal then (src, false)
  else if (dst = .EvqIn ∧ src = .EvqOut) ∨ (dst = .EvqOut ∧ src = .EvqIn) then
    (.EvqInOut, false)
  else if (dst = .EvqIn ∧ src = .EvqConst) ∨ (dst = .EvqConst ∧ src = .EvqIn) then
    (.EvqConstReadOnly, false)
  else if src ≠ .EvqTemporary then (dst, true)
  else (dst, false)

/-- `TParseContext::mergeLayoutQualifiers`: merge layout qualifier
information from `src` into `dst`, leaving everything else alone; a
non-none (set) field of `src` wins. -/
def mergeLayoutQualifiers (dst src : TQualifier) : TQualifier :=
  { dst with
    layoutMatrix := if src.layoutMatrix ≠ .ElmNone then src.layoutMatrix else dst.layoutMatrix
    layoutPacking := if src.layoutPacking ≠ .ElpNone then src.layoutPacking else dst.layoutPacking
    layoutSlotLocation := if src.hasLocation = true then src.layoutSlotLocation else dst.layoutSlotLocation
    layoutBinding := if src.hasBinding = true then src.layoutBinding else dst.layoutBinding }

/-- The duplicate auxiliary / interpolation diagnostics at the top of
`mergeQualifiers`. -/
def mergeAuxInterpDiags (loc : TSourceLoc) (dst src : TQualifier) : List Diag :=
  (if src.isAuxiliary = true ∧ dst.isAuxiliary = true then
     [⟨.onlyOneAuxiliary, loc⟩] else []) ++
  (if src.isInterpolation = true ∧ dst.isInterpolation = true then
     [⟨.onlyOneInterpolation, loc⟩] else [])

/-- The qualifier-ordering diagnostics of `mergeQualifiers`, active when
`force` is false and the version is below 420. -/
def mergeOrderingDiags (loc : TSourceLoc) (dst src : TQualifier)
    (force : Bool) (version : Nat) : List Diag :=
  if force = false ∧ version < 420 then
    (if src.invariant = true ∧ (dst.isInterpolation = true ∨ dst.isAuxiliary = true ∨
        dst.storage ≠ .EvqTemporary ∨ dst.precision ≠ .EpqNone) then
       [⟨.invariantQualifierFirst, loc⟩]
     else if src.isInterpolation = true ∧ (dst.isAuxiliary = true ∨
        dst.storage ≠ .EvqTemporary ∨ dst.precision ≠ .EpqNone) then
       [⟨.interpolationQualifiersBeforeStoragePrecision, loc⟩]
     else if src.isAuxiliary = true ∧ (dst.storage ≠ .EvqTemporary ∨
        dst.precision ≠ .EpqNone) then
       [⟨.auxiliaryQualifiersBeforeStoragePrecision, loc⟩]
     else if src.storage ≠ .EvqTemporary ∧ dst.precision ≠ .EpqNone then
       [⟨.precisionQualifierLast, loc⟩]
     else []) ++
    (if src.storage = .EvqConst ∧ (dst.storage = .EvqIn ∨ dst.storage = .EvqOut) then
       [⟨.inOutBeforeConst, loc⟩]
     else [])
  else []

/-- The duplicate-precision diagnostic of `mergeQualifiers`. -/
def mergePrecisionDiags (loc : TSourceLoc) (dst src : TQualifier) (force : Bool) : List Diag :=
  if force = false ∧ src.precision ≠ .EpqNone ∧ dst.precision ≠ .EpqNone then
    [⟨.onlyOnePrecisionQualifier, loc⟩]
  else []

/-- The `repeated` flag accumulated by the `MERGE_SINGLETON` lines of
`mergeQualifiers`. -/
def mergeRepeatedSingleton (dst src : TQualifier) : Bool :=
  (dst.invariant && src.invariant) || (dst.centroid && src.centroid) ||
  (dst.smooth && src.smooth) || (dst.flat && src.flat) ||
  (dst.nopersp && src.nopersp) || (dst.patch && src.patch) ||
  (dst.sample && src.sample) || (dst.shared && src.shared) ||
  (dst.coherent && src.coherent) || (dst.volatil && src.volatil) ||
  (dst.restrict && src.restrict) || (dst.readonly && src.readonly) ||
  (dst.writeonly && src.writeonly)

/-- `TParseContext::mergeQualifiers`: merge the characteristics of `src`
into `dst`, returning the merged qualifier and the emitted diagnostics in
source order. -/
def mergeQualifiers (loc : TSourceLoc) (dst src : TQualifier) (force : Bool)
    (version : Nat) : TQualifier × List Diag :=
  let afterLayout := mergeLayoutQualifiers
    { dst with
      storage := (mergeStorage dst.storage src.storage).1
      precision :=
        if dst.precision = .EpqNone ∨ (force = true ∧ src.precision ≠ .EpqNone)
        then src.precision else dst.precision } src
  let merged := { afterLayout with
    invariant := dst.invariant || src.invariant
    centroid := dst.centroid || src.centroid
    smooth := dst.smooth || src.smooth
    flat := dst.flat || src.flat
    nopersp := dst.nopersp || src.nopersp
    patch := dst.patch || src.patch
    sample := dst.sample || src.sample
    shared := dst.shared || src.shared
    coherent := dst.coherent || src.coherent
    volatil := dst.volatil || src.volatil
    restrict := dst.restrict || src.restrict
    readonly := dst.readonly || src.readonly
    writeonly := dst.writeonly || src.writeonly }
  (merged,
    mergeAuxInterpDiags loc dst src ++
    mergeOrderingDiags loc dst src force version ++
    (if (mergeStorage dst.storage src.storage).2 = true then
       [⟨.tooManyStorageQualifiers, loc⟩] else []) ++
    mergePrecisionDiags loc dst src force ++
    (if mergeRepeatedSingleton dst src = true then
       [⟨.replicatedQualifiers, loc⟩] else []))


/-! ## constructorError -/

/-- A function parameter, as in `TParameter`: optional name and type. -/
structure TParameter where
  name : Option String
  ty : TType

/-- A function object used for calls and constructors, as in `TFunction`:
name, mangled name, built-in op, return type and parameter list. -/
structure TFunction where
  name : String
  mangledName : String
  builtInOp : TOperator
  returnType : TType
  params : List TParameter

/-- Replace the array size of a type (`TType::changeArraySize`). -/
def TType.changeArraySize (t : TType) (n : Nat) : TType :=
  match t with
  | .mk b q v mc mr _ m f => .mk b q v mc mr (some n) m f

/-- Replace the storage qualifier of a type
(`type.getQualifier().storage = ...`). -/
def TType.withStorage (t : TType) (s : TStorageQualifier) : TType :=
  match t with
  | .mk b q v mc mr a m f => .mk b { q with storage := s } v mc mr a m f

/-- The operators classified as matrix construction by the first switch
of `constructorError`. -/
def isMatrixConstructOp (op : TOperator) : Bool :=
  match op with
  | .EOpConstructMat2x2 | .EOpConstructMat2x3 | .EOpConstructMat2x4
  | .EOpConstructMat3x2 | .EOpConstructMat3x3 | .EOpConstructMat3x4
  | .EOpConstructMat4x2 | .EOpConstructMat4x3 | .EOpConstructMat4x4
  | .EOpConstructDMat2x2 | .EOpConstructDMat2x3 | .EOpConstructDMat2x4
  | .EOpConstructDMat3x2 | .EOpConstructDMat3x3 | .EOpConstructDMat3x4
  | .EOpConstructDMat4x2 | .EOpConstructDMat4x3 | .EOpConstructDMat4x4 => true
  | _ => false

/-- The accumulator of the argument loop of `constructorError`. -/
structure ConstructorScan where
  size : Nat
  constType : Bool
  full : Bool
  overFull : Bool
  matrixInMatrix : Bool
  arrayArg : Bool
deriving DecidableEq, Repr

/-- One iteration of the argument loop of `constructorError`.  The order
matches the source: the size grows first, `overFull` is set from the old
`full`, then `full` is updated from the new size. -/
def constructorScanStep (constructingMatrix : Bool) (op : TOperator) (ty : TType)
    (st : ConstructorScan) (param : TParameter) : ConstructorScan :=
  let size := st.size + param.ty.getObjectSize
  { size := size
    constType := st.constType && decide (param.ty.qualifier.storage = .EvqConst)
    full := st.full ||
      (decide (op ≠ TOperator.EOpConstructStruct) && !ty.isArray &&
        decide (ty.getObjectSize ≤ size))
    overFull := st.overFull || st.full
    matrixInMatrix := st.matrixInMatrix || (constructingMatrix && param.ty.isMatrix)
    arrayArg := st.arrayArg || param.ty.isArray }

/-- The whole argument loop of `constructorError`. -/
def constructorScan (op : TOperator) (ty : TType) (params : List TParameter) :
    ConstructorScan :=
  params.foldl (constructorScanStep (isMatrixConstructOp op) op ty)
    ⟨0, true, false, false, false, false⟩

/-- `TParseContext::constructorError`: check that a constructor call is
well formed.  Returns the error flag (`true` means error), the adapted
constructor type, and the emitted diagnostics. -/
def constructorError (loc : TSourceLoc) (node : Option TIntermNode)
    (function : TFunction) (op : TOperator) (profile : EProfile) (version : Nat) :
    Bool × TType × List Diag :=
  let scan := constructorScan op function.returnType function.params
  let type1 := if scan.constType = true then function.returnType.withStorage .EvqConst
               else function.returnType
  if type1.isArray = true ∧ type1.getArraySize ≠ 0 ∧
      type1.getArraySize ≠ function.params.length then
    (true, type1, [⟨.arrayConstructorOneArgPerElement, loc⟩])
  else
    let type2 := if type1.isArray = true ∧ type1.getArraySize = 0 then
                   type1.changeArraySize function.params.length
                 else type1
    if scan.arrayArg = true ∧ op ≠ .EOpConstructStruct then
      (true, type2, [⟨.constructingFromNonDereferencedArray, loc⟩])
    else if scan.matrixInMatrix = true ∧ type2.isArray = false then
      (false, type2, profileRequires loc profile maskNoProfile version 120 false)
    else if scan.overFull = true then
      (true, type2, [⟨.tooManyArguments, loc⟩])
    else if op = .EOpConstructStruct ∧ type2.isArray = false ∧
        type2.fields.length ≠ function.params.length then
      (true, type2, [⟨.structConstructorArity, loc⟩])
    else if (op ≠ .EOpConstructStruct ∧ scan.size ≠ 1 ∧ scan.size < type2.getObjectSize) ∨
        (op = .EOpConstructStruct ∧ scan.size < type2.getObjectSize) then
      (true, type2, [⟨.notEnoughDataForConstruction, loc⟩])
    else
      match node with
      | none => (true, type2, [⟨.constructorArgumentHasNoType, loc⟩])
      | some nd =>
        if nd.isTyped = false then (true, type2, [⟨.constructorArgumentHasNoType, loc⟩])
        else if op ≠ .EOpConstructStruct ∧ nd.getBasicType = .EbtSampler then
          (true, type2, [⟨.cannotConvertSampler, loc⟩])
        else if nd.getBasicType = .EbtVoid then
          (true, type2, [⟨.cannotConvertVoid, loc⟩])
        else (false, type2, [])

/-- Scalar float type with temporary storage. -/
def floatTempType : TType := .mk .EbtFloat defaultQualifier 1 0 0 none 0 []

/-- The type `vec4` with temporary storage. -/
def vec4TempType : TType := .mk .EbtFloat defaultQualifier 4 0 0 none 0 []

/-- The type `mat2` with temporary storage. -/
def mat2TempType : TType := .mk .EbtFloat defaultQualifier 1 2 2 none 0 []


/-! ## parseShaderStrings -/

/-- Whitespace characters recognized by the leading-whitespace scan of
`parseShaderStrings`. -/
def isShaderWhitespace (c : Char) : Bool :=
  c = ' ' || c = '\t' || c = '\n' || c = '\r'

/-- The null-sub-string scan of `parseShaderStrings`: index of the first
null entry among the first `numStrings` strings (the source loop returns
at the first hit). -/
def firstNullIndex : List (Option (List Char)) → Nat → Option Nat
  | _, 0 => none
  | [], _ => none
  | none :: _, _ + 1 => some 0
  | some _ :: rest, n + 1 => (firstNullIndex rest n).map (· + 1)

/-- `TParseContext::parseShaderStrings`.  The preprocessor, `yyparse` and
`finalize` influence the result only through the error counter; their
combined effect on it is abstracted as the parameter `run` (they live
outside this source file).  Returns the acceptance flag and the
diagnostics this function itself emits. -/
def parseShaderStrings (strings : Option (List (Option (List Char))))
    (lengths : List Nat) (numStrings : Nat) (run : Nat → Nat) (numErrors : Nat) :
    Bool × List Diag :=
  match strings with
  | none => (true, [])
  | some strs =>
    if numStrings = 0 ∨ lengths.getD 0 0 = 0 then (true, [])
    else
      match firstNullIndex strs numStrings with
      | some i => (false, [⟨.nullShaderSourceString, ⟨i, 1⟩⟩])
      | none =>
        let s0 := (strs.getD 0 (some [])).getD []
        if (s0.take (lengths.getD 0 0)).all isShaderWhitespace = true then (true, [])
        else (decide (run numErrors = 0), [])


/-! ## inductiveLoopCheck -/

/-- Down-cast to a unary node (`getAsUnaryNode`). -/
def TIntermNode.getAsUnaryNode : TIntermNode → Option (TOperator × TIntermNode × TType)
  | .unary op operand ty => some (op, operand, ty)
  | _ => none

/-- A loop node, as `TIntermLoop`: body, test, terminal. -/
structure TIntermLoop where
  body : Option TIntermNode
  test : Option TIntermNode
  terminal : Option TIntermNode

/-- Scalar int type with temporary storage. -/
def intTempType : TType := .mk .EbtInt defaultQualifier 1 0 0 none 0 []

/-- Scalar int type with const storage. -/
def intConstType : TType :=
  .mk .EbtInt { defaultQualifier with storage := .EvqConst } 1 0 0 none 0 []

/-- `TParseContext::inductiveLoopCheck`, the ES 100 Appendix-A loop
restrictions.  Returns the updated `inductiveLoopIds` and the emitted
diagnostics; the AST traversal of the loop body
(`inductiveLoopBodyCheck`, defined outside this file) is abstracted as
the parameter `bodyCheck`.  The init-size test translates the source
expression `! init->getAsAggregate()->getSequence().size() == 1`, which
by C++ precedence is `(! size) == 1`, that is `size == 0`. -/
def inductiveLoopCheck (loc : TSourceLoc) (init : Option TIntermNode)
    (loop : TIntermLoop) (inductiveLoopIds : List Nat)
    (bodyCheck : Option TIntermNode → Nat → List Diag) :
    List Nat × List Diag :=
  let badInit0 :=
    match init with
    | none => true
    | some i =>
      match i.getAsAggregate with
      | none => true
      | some (_, seq) => decide (seq.length = 0)
  let binaryInit :=
    if badInit0 = true then none
    else
      match init with
      | some i =>
        match i.getAsAggregate with
        | some (_, seq) => (seq.getD 0 (TIntermNode.branch none)).getAsBinaryNode
        | none => none
      | none => none
  match binaryInit with
  | none => (inductiveLoopIds, [⟨.inductiveLoopInitDeclarationForm, loc⟩])
  | some (bop, bleft, bright, bty) =>
    if ¬bty.isScalar = true ∨ (bty.basicType ≠ .EbtInt ∧ bty.basicType ≠ .EbtFloat) then
      (inductiveLoopIds, [⟨.inductiveLoopScalarIndex, loc⟩])
    else if bop ≠ .EOpAssign ∨ bleft.getAsSymbolNode.isNone = true ∨
        bright.getAsConstantUnion.isNone = true then
      (inductiveLoopIds, [⟨.inductiveLoopInitDeclarationForm, loc⟩])
    else
      let loopIndex := (bleft.getAsSymbolNode.map Prod.fst).getD 0
      let ids2 := inductiveLoopIds.insert loopIndex
      let badCond :=
        match loop.test with
        | none => true
        | some tst =>
          match tst.getAsBinaryNode with
          | none => true
          | some (cop, cl, cr, _) =>
            !(decide (cop = .EOpGreaterThan ∨ cop = .EOpGreaterThanEqual ∨
               cop = .EOpLessThan ∨ cop = .EOpLessThanEqual ∨
               cop = .EOpEqual ∨ cop = .EOpNotEqual)) ||
            (match cl.getAsSymbolNode with
             | none => true
             | some (cid, _, _) => decide (cid ≠ loopIndex)) ||
            cr.getAsConstantUnion.isNone
      if badCond = true then (ids2, [⟨.inductiveLoopConditionForm, loc⟩])
      else
        let badTerminal :=
          match loop.terminal with
          | none => true
          | some tm =>
            match tm.getAsUnaryNode, tm.getAsBinaryNode with
            | some (uop, operand, _), _ =>
              !(decide (uop = .EOpPostDecrement ∨ uop = .EOpPostIncrement ∨
                 uop = .EOpAddAssign ∨ uop = .EOpSubAssign)) ||
              (match operand.getAsSymbolNode with
               | none => true
               | some (uid, _, _) => decide (uid ≠ loopIndex))
            | none, some (top, tl, tr, _) =>
              !(decide (top = .EOpPostDecrement ∨ top = .EOpPostIncrement ∨
                 top = .EOpAddAssign ∨ top = .EOpSubAssign)) ||
              (match tl.getAsSymbolNode with
               | none => true
               | some (tid, _, _) => decide (tid ≠ loopIndex)) ||
              tr.getAsConstantUnion.isNone
            | none, none => true
        if badTerminal = true then (ids2, [⟨.inductiveLoopTerminationForm, loc⟩])
        else (ids2, bodyCheck loop.body loopIndex)

/-- An init aggregate holding two assignment declarations. -/
def twoAssignInit : TIntermNode :=
  .aggregate .EOpSequence
    [.binary .EOpAssign (.symbol 7 "i" intTempType)
       (.constantUnion [.iconst 0] intConstType) intTempType,
     .binary .EOpAssign (.symbol 8 "j" intTempType)
       (.constantUnion [.iconst 0] intConstType) intTempType]
    voidType

/-- C4, failing input for the code bug: an init aggregate with two
declaration assignments (sequence size two).  Because the source tests
`(! size) == 1` instead of `size == 1`, no init-declaration diagnostic is
produced and the first declaration's symbol id is recorded as an
inductive loop index anyway. -/
theorem inductiveLoopCheck_size_two_bug :
    (inductiveLoopCheck ⟨0, 1⟩ (some twoAssignInit) ⟨none, none, none⟩ []
        (fun _ _ => [])).1 = [7] ∧
    ∀ d ∈ (inductiveLoopCheck ⟨0, 1⟩ (some twoAssignInit) ⟨none, none, none⟩ []
        (fun _ _ => [])).2, d.kind ≠ .inductiveLoopInitDeclarationForm := by
  constructor
  · rfl
  · decide


/-! ## switch assembly -/

/-- Replace an aggregate node's operator
(`TIntermAggregate::setOperator`); other nodes are unchanged. -/
def TIntermNode.setOperator (n : TIntermNode) (op : TOperator) : TIntermNode :=
  match n with
  | .aggregate _ seq ty => .aggregate op seq ty
  | other => other

/-- `TParseContext::wrapupSwitchSubsequence`: append the statements built
since the last label to the current switch sequence, then the new
case/default branch, checking for duplicate labels.  `loc` stands for
the locations the source reads off the nodes. -/
def wrapupSwitchSubsequence (loc : TSourceLoc) (switchSequence : List TIntermNode)
    (statements : Option TIntermNode) (branchNode : Option TIntermNode) :
    List TIntermNode × List Diag :=
  let seq1 := match statements with
    | none => switchSequence
    | some stmts => switchSequence ++ [stmts.setOperator .EOpSequence]
  let d1 : List Diag := match statements with
    | none => []
    | some _ =>
      if switchSequence.length = 0 then [⟨.statementsBeforeFirstCase, loc⟩] else []
  match branchNode with
  | none => (seq1, d1)
  | some br =>
    let newExpr := match br.getAsBranchNode with
      | some e => e
      | none => none
    let dupDiags := seq1.foldl (fun acc prev =>
      match prev.getAsBranchNode with
      | none => acc
      | some prevExpr =>
        acc ++
        (if prevExpr.isNone = true ∧ newExpr.isNone = true then
           [⟨.duplicateDefaultLabel, loc⟩]
         else
           match prevExpr, newExpr with
           | some pe, some ne2 =>
             if pe.getAsConstantUnion.isSome = true ∧ ne2.getAsConstantUnion.isSome = true ∧
                 pe.constIntValue = ne2.constIntValue then
               [⟨.duplicatedCaseValue, loc⟩]
             else []
           | _, _ => [])) []
    (seq1 ++ [br], d1 ++ dupDiags)

/-- The scalar-integer condition test of `addSwitch`: the expression is
present and a non-array, non-matrix, non-vector int or uint. -/
def switchCondOk (expression : Option TIntermNode) : Bool :=
  match expression with
  | none => false
  | some e =>
    (decide (e.getBasicType = .EbtInt) || decide (e.getBasicType = .EbtUint)) &&
    !e.getType.isArray && !e.getType.isMatrix && !e.getType.isVector

/-- `TParseContext::addSwitch`: wrap up the last statements, check the
switch condition, and build the switch node (or fall back to the bare
expression).  Returns the produced node, the wrapped-up sequence (the
mutated stack top) and the diagnostics. -/
def addSwitch (loc : TSourceLoc) (expression : Option TIntermNode)
    (lastStatements : Option TIntermNode) (switchSequence : List TIntermNode)
    (profile : EProfile) (version : Nat) :
    Option TIntermNode × List TIntermNode × List Diag :=
  let gateDiags := profileRequires loc profile maskEs version 300 false ++
                   profileRequires loc profile maskNoProfile version 130 false
  let seq1 := (wrapupSwitchSubsequence loc switchSequence lastStatements none).1
  let wrapDiags := (wrapupSwitchSubsequence loc switchSequence lastStatements none).2
  let condDiags :=
    if switchCondOk expression = false then [⟨.switchConditionScalarInteger, loc⟩] else []
  if seq1.length = 0 then
    (expression, seq1, gateDiags ++ wrapDiags ++ condDiags)
  else if lastStatements.isNone = true then
    (expression, seq1,
      gateDiags ++ wrapDiags ++ condDiags ++ [⟨.lastCaseLabelNeedsStatements, loc⟩])
  else
    (some (.switchNode expression (.aggregate .EOpSequence seq1 voidType)), seq1,
      gateDiags ++ wrapDiags ++ condDiags)

/-! ## lValueErrorCheck -/

/-- The duplicate-component walk of the VectorSwizzle case of
`lValueErrorCheck` (the `offset[value]++` loop): stops with an error at
the first component selected twice. -/
def swizzleHasDuplicate (seen : List Int) : List Int → Bool
  | [] => false
  | v :: rest => if v ∈ seen then true else swizzleHasDuplicate (v :: seen) rest

/-- Whether the storage / basic-type tables at the bottom of
`lValueErrorCheck` pick a problem message for the node. -/
def lValueHasMessage (node : TIntermNode) : Bool :=
  match node.getQualifier.storage with
  | .EvqConst | .EvqConstReadOnly | .EvqVaryingIn | .EvqUniform
  | .EvqInstanceId | .EvqVertexId | .EvqFace | .EvqFragCoord | .EvqPointCoord => true
  | _ =>
    match node.getBasicType with
    | .EbtSampler | .EbtVoid => true
    | _ => false

/-- `TParseContext::lValueErrorCheck`: test whether the node is a
writable l-value; `true` means an error was found (and reported). -/
def lValueErrorCheck (loc : TSourceLoc) (node : TIntermNode) : Bool × List Diag :=
  match node with
  | .binary op l r _ =>
    match op with
    | .EOpIndexDirect | .EOpIndexIndirect | .EOpIndexDirectStruct =>
      lValueErrorCheck loc l
    | .EOpVectorSwizzle =>
      let p := lValueErrorCheck loc l
      if p.1 = false then
        let vals := match r.getAsAggregate with
          | some (_, seq) => seq.map TIntermNode.constIntValue
          | none => []
        if swizzleHasDuplicate [] vals = true then
          (true, p.2 ++ [⟨.lValueSwizzleDuplicateComponents, loc⟩])
        else p
      else p
    | _ => (true, [⟨.lValueRequired, loc⟩])
  | other =>
    if lValueHasMessage other = true then (true, [⟨.lValueRequired, loc⟩])
    else
      match other.getAsSymbolNode with
      | some _ => (false, [])
      | none => (true, [⟨.lValueRequired, loc⟩])


/-! ## symbol table and parse context -/

/-- A symbol, as the `TSymbol` variants: variable (with an optional
constant value), function, or anonymous block member.  `readOnly` is
true for built-in-level symbols. -/
inductive TSymbol where
  | varSym (id : Nat) (name : String) (ty : TType)
      (constArray : List ConstValue) (readOnly : Bool)
  | funcSym (name : String) (mangledName : String) (builtInOp : TOperator)
      (returnType : TType) (params : List TParameter) (readOnly : Bool)
  | anonSym (containerId : Nat) (containerName : String)
      (containerType : TType) (memberNumber : Nat)

/-- Whether the symbol is read only (a built-in). -/
def TSymbol.isReadOnly : TSymbol → Bool
  | .varSym _ _ _ _ r => r
  | .funcSym _ _ _ _ _ r => r
  | .anonSym _ _ _ _ => false

/-- Replace the symbol's type maxArraySize, clearing read-only (the
`copyUp` producing a writable clone followed by `setMaxArraySize`). -/
def TType.setMaxArraySize (t : TType) (n : Nat) : TType :=
  match t with
  | .mk b q v mc mr a _ f => .mk b q v mc mr a n f

/-- Apply `setMaxArraySize` to a symbol (after `copyUp` when needed). -/
def TSymbol.withMaxArraySize (s : TSymbol) (n : Nat) : TSymbol :=
  match s with
  | .varSym id nm ty ca _ => .varSym id nm (ty.setMaxArraySize n) ca false
  | .funcSym nm mn op rt ps r => .funcSym nm mn op rt ps r
  | .anonSym cid cn ct m => .anonSym cid cn (ct.setMaxArraySize n) m

/-- The symbol table flattened to an association list from names
(mangled names for functions) to symbols, innermost first, plus a
counter supplying fresh unique ids.  `copyUp` is modelled by replacing
the first binding of a name with its writable clone, which is what a
subsequent `find` observes. -/
structure SymbolTable where
  entries : List (String × TSymbol)
  nextId : Nat

/-- Innermost-out lookup (`TSymbolTable::find`). -/
def SymbolTable.find (st : SymbolTable) (name : String) : Option TSymbol :=
  (st.entries.find? (fun e => decide (e.1 = name))).map Prod.snd

/-- Replace the value of the first binding of `name` in an association
list by applying `f`. -/
def updateFirstEntries (name : String) (f : TSymbol → TSymbol) :
    List (String × TSymbol) → List (String × TSymbol)
  | [] => []
  | e :: rest =>
    if e.1 = name then (e.1, f e.2) :: rest else e :: updateFirstEntries name f rest

/-- Replace the first binding of `name` by applying `f` to its symbol. -/
def SymbolTable.updateFirst (st : SymbolTable) (name : String)
    (f : TSymbol → TSymbol) : SymbolTable :=
  ⟨updateFirstEntries name f st.entries, st.nextId⟩

/-- The six ES index-limitation resources
(`built_in_limits` in the configuration). -/
structure TBuiltInLimits where
  generalAttributeMatrixVectorIndexing : Bool
  generalConstantMatrixVectorIndexing : Bool
  generalSamplerIndexing : Bool
  generalUniformIndexing : Bool
  generalVariableIndexing : Bool
  generalVaryingIndexing : Bool

/-- The slice of `TParseContext` state that the embedded expression
handlers read and write. -/
structure ParseContext where
  version : Nat
  profile : EProfile
  language : EShLanguage
  limits : TBuiltInLimits
  anyIndexLimits : Bool
  symbolTable : SymbolTable
  needsIndexLimitationChecking : List TIntermNode

/-- `TParseContext::variableCheck`: an `EbtVoid`-typed symbol node is an
undeclared identifier — report it, insert a fresh float-typed dummy
variable, and substitute a symbol node for it.  A `gl_PointCoord`
reference is version-gated. -/
def variableCheck (ctx : ParseContext) (loc : TSourceLoc) (node : TIntermNode) :
    TIntermNode × ParseContext × List Diag :=
  match node.getAsSymbolNode with
  | none => (node, ctx, [])
  | some (_, name, ty) =>
    if ty.basicType = .EbtVoid then
      let fakeVariable : TSymbol := .varSym ctx.symbolTable.nextId name floatTempType [] false
      (.symbol ctx.symbolTable.nextId name floatTempType,
       { ctx with symbolTable :=
          ⟨(name, fakeVariable) :: ctx.symbolTable.entries, ctx.symbolTable.nextId + 1⟩ },
       [⟨.undeclaredIdentifier, loc⟩])
    else
      match ty.qualifier.storage with
      | .EvqPointCoord =>
        (node, ctx, profileRequires loc ctx.profile maskNoProfile ctx.version 120 false)
      | _ => (node, ctx, [])

/-- `TParseContext::updateMaxArraySize`: record the largest constant
index seen on an implicitly sized array, copying built-ins up to a
writable clone first. -/
def updateMaxArraySize (loc : TSourceLoc) (st : SymbolTable) (node : TIntermNode)
    (index : Int) : SymbolTable × List Diag :=
  match node.getAsSymbolNode with
  | none => (st, [])
  | some (_, name, ty) =>
    if index < (ty.maxArraySize : Int) then (st, [])
    else
      match st.find name with
      | none => (st, [])
      | some sym =>
        match sym with
        | .funcSym _ _ _ _ _ _ => (st, [⟨.arrayVariableNameExpected, loc⟩])
        | _ => (st.updateFirst name (fun s => s.withMaxArraySize (index + 1).toNat), [])

/-! ## constant folding helpers for bracket dereference -/

/-- Modelled from the spec: `TType::dereference` reduces the outer
dimension — array to element, matrix to column vector, vector to
scalar (Types.h is outside the provided source). -/
def TType.dereference (t : TType) : TType :=
  match t with
  | .mk b q v mc mr a m f =>
    match a with
    | some _ => .mk b q v mc mr none m f
    | none =>
      if 0 < mc then .mk b q mr 0 0 none m f
      else .mk b q 1 0 0 none m f

/-- Replace a typed node's type (`setType`). -/
def TIntermNode.setType (n : TIntermNode) (ty : TType) : TIntermNode :=
  match n with
  | .symbol id nm _ => .symbol id nm ty
  | .constantUnion v _ => .constantUnion v ty
  | .binary op l r _ => .binary op l r ty
  | .unary op o _ => .unary op o ty
  | .aggregate op s _ => .aggregate op s ty
  | .methodNode b nm _ => .methodNode b nm ty
  | other => other

/-- `TParseContext::addConstVectorNode`: project the selected lanes out
of a constant vector; offsets at or beyond the object size are reported
and clamped to 0. -/
def addConstVectorNode (fields : List Int) (node : TIntermNode) (loc : TSourceLoc) :
    Option TIntermNode × List Diag :=
  match node.getAsConstantUnion with
  | none => (none, [⟨.cannotOffsetIntoVector, loc⟩])
  | some unionArray =>
    let objSize : Int := node.getType.getObjectSize
    let fixed := fields.map (fun off => if objSize ≤ off then 0 else off)
    let diags := fields.foldl (fun acc off =>
      if objSize ≤ off then acc ++ [⟨.vectorIndexOutOfRange, loc⟩] else acc) []
    (some (.constantUnion (fixed.map (fun off => unionArray.getD off.toNat (.iconst 0)))
      node.getType), diags)

/-- `TParseContext::addConstMatrixNode`: slice the selected column out of
a constant matrix. -/
def addConstMatrixNode (index : Int) (node : TIntermNode) (loc : TSourceLoc) :
    Option TIntermNode × List Diag :=
  let (ix, d1) : Int × List Diag :=
    if (node.getType.matrixCols : Int) ≤ index then
      (0, [⟨.matrixFieldSelectionOutOfRange, loc⟩])
    else (index, [])
  match node.getAsConstantUnion with
  | none => (none, d1 ++ [⟨.cannotOffsetIntoMatrix, loc⟩])
  | some unionArray =>
    let size := node.getType.matrixRows
    (some (.constantUnion ((unionArray.drop (size * ix.toNat)).take size) node.getType),
     d1)

/-- `TParseContext::addConstArrayNode`: slice the selected element out of
a constant array. -/
def addConstArrayNode (index : Int) (node : TIntermNode) (loc : TSourceLoc) :
    Option TIntermNode × List Diag :=
  let (ix, d1) : Int × List Diag :=
    if (node.getType.getArraySize : Int) ≤ index ∨ index < 0 then
      (0, [⟨.arrayIndexValueOutOfRange, loc⟩])
    else (index, [])
  let arrayElementSize := node.getType.dereference.getObjectSize
  match node.getAsConstantUnion with
  | none => (none, d1 ++ [⟨.cannotOffsetIntoArray, loc⟩])
  | some unionArray =>
    (some (.constantUnion
      ((unionArray.drop (arrayElementSize * ix.toNat)).take arrayElementSize)
      node.getType), d1)

/-! ## handleBracketDereference -/

/-- The branch structure of `handleBracketDereference`, up to (not
including) the null-recovery and re-typing tail: returns the possibly
null result, the (possibly substituted) base, the updated context and
the diagnostics so far. -/
def handleBracketDereferenceRaw (ctx : ParseContext) (loc : TSourceLoc)
    (base0 index : TIntermNode) :
    Option TIntermNode × TIntermNode × ParseContext × List Diag :=
  let checked := variableCheck ctx loc base0
  let base := checked.1
  let ctx1 := checked.2.1
  let d1 := checked.2.2
  if ¬(base.isArray = true ∨ base.isMatrix = true ∨ base.isVector = true) then
    (none, base, ctx1, d1 ++ [⟨.leftOfBracketNotIndexable, loc⟩])
  else if base.getType.qualifier.storage = .EvqConst ∧
      index.getQualifier.storage = .EvqConst then
    if base.isArray = true then
      let folded := addConstArrayNode index.constIntValue base loc
      (folded.1, base, ctx1, d1 ++ folded.2)
    else if base.isVector = true then
      let folded := addConstVectorNode [index.constIntValue] base loc
      (folded.1, base, ctx1, d1 ++ folded.2)
    else
      let folded := addConstMatrixNode index.constIntValue base loc
      (folded.1, base, ctx1, d1 ++ folded.2)
  else if index.getQualifier.storage = .EvqConst then
    let indexValue := index.constIntValue
    let d2 :=
      if base.isArray = false ∧
          ((base.isVector = true ∧ (base.getType.vectorSize : Int) ≤ indexValue) ∨
           (base.isMatrix = true ∧ (base.getType.matrixCols : Int) ≤ indexValue)) then
        [⟨.indexOutOfRange, loc⟩]
      else []
    if base.isArray = true ∧ base.getType.getArraySize = 0 then
      let upd := updateMaxArraySize loc ctx1.symbolTable base indexValue
      (some (.binary .EOpIndexDirect base index base.getType),
       base, { ctx1 with symbolTable := upd.1 }, d1 ++ d2 ++ upd.2)
    else if base.isArray = true ∧
        ((base.getType.getArraySize : Int) ≤ indexValue ∨ indexValue < 0) then
      (some (.binary .EOpIndexDirect base index base.getType),
       base, ctx1, d1 ++ d2 ++ [⟨.arrayIndexOutOfRange, loc⟩])
    else
      (some (.binary .EOpIndexDirect base index base.getType), base, ctx1, d1 ++ d2)
  else
    let d2 :=
      if base.isArray = true ∧ base.getType.getArraySize = 0 then
        [⟨.arrayMustBeRedeclaredWithSize, loc⟩]
      else []
    let d3 :=
      if base.getBasicType = .EbtBlock then requireProfile loc ctx1.profile maskNotEs
      else []
    let d4 :=
      if base.getBasicType = .EbtSampler ∧ 130 ≤ ctx1.version then
        requireProfile loc ctx1.profile maskCoreCompat ++
        profileRequires loc ctx1.profile maskCoreCompat ctx1.version 400 false
      else []
    (some (.binary .EOpIndexIndirect base index base.getType),
     base, ctx1, d1 ++ d2 ++ d3 ++ d4)

/-- The recovery constant `0.0f` with const storage installed on every
null result path. -/
def recoveryFloatZero : TIntermNode := .constantUnion [.dconst 0] floatConstType

/-- The ES index-limitation condition of `handleBracketDereference`. -/
def indexLimitsApply (ctx : ParseContext) (base : TIntermNode) : Bool :=
  (!ctx.limits.generalSamplerIndexing && decide (base.getBasicType = .EbtSampler)) ||
  (!ctx.limits.generalUniformIndexing && base.getQualifier.isUniform &&
    decide (ctx.language ≠ .EShLangVertex)) ||
  (!ctx.limits.generalAttributeMatrixVectorIndexing && base.getQualifier.isPipeInput &&
    decide (ctx.language = .EShLangVertex) && (base.isMatrix || base.isVector)) ||
  (!ctx.limits.generalConstantMatrixVectorIndexing && base.getAsConstantUnion.isSome) ||
  (!ctx.limits.generalVariableIndexing && !base.getQualifier.isUniform &&
    !base.getQualifier.isPipeInput && !base.getQualifier.isPipeOutput &&
    decide (base.getType.qualifier.storage ≠ .EvqConst)) ||
  (!ctx.limits.generalVaryingIndexing &&
    (base.getQualifier.isPipeInput || base.getQualifier.isPipeOutput))

/-- `TParseContext::handleBracketDereference`: full handler, including
the null-recovery tail (`0.0f` const float), the result re-typing by
dereference, and the deferred index-limitation enqueueing. -/
def handleBracketDereference (ctx : ParseContext) (loc : TSourceLoc)
    (base0 index : TIntermNode) : TIntermNode × ParseContext × List Diag :=
  let raw := handleBracketDereferenceRaw ctx loc base0 index
  match raw with
  | (none, _, ctx1, ds) => (recoveryFloatZero, ctx1, ds)
  | (some r, base, ctx1, ds) =>
    let newType0 :=
      if base.getType.qualifier.storage = .EvqConst ∧
          index.getQualifier.storage = .EvqConst then
        base.getType.withStorage .EvqConst
      else base.getType
    let result := r.setType newType0.dereference
    let ctx2 :=
      if ctx1.anyIndexLimits = true ∧ indexLimitsApply ctx1 base = true then
        { ctx1 with needsIndexLimitationChecking :=
            ctx1.needsIndexLimitationChecking ++ [index] }
      else ctx1
    (result, ctx2, ds)

/-- The type `float[4]` (a sized array of four floats) with temporary
storage. -/
def floatArray4Type : TType := .mk .EbtFloat defaultQualifier 1 0 0 (some 4) 0 []


/-! ## handleVariable and handleFunctionCall -/

/-- The uint const type used for anonymous member indices. -/
def uintConstType : TType :=
  .mk .EbtUint { defaultQualifier with storage := .EvqConst } 1 0 0 none 0 []

/-- `TParseContext::handleVariable`: build the reference node for an
identifier from its symbol-table hit (possibly none).  An anonymous
member becomes an IndexDirectStruct into its container; a missing or
non-variable symbol becomes a fresh void-typed dummy variable (with a
diagnostic when a symbol of the wrong kind was found); a const variable
becomes a constant node, any other variable a symbol node. -/
def handleVariable (loc : TSourceLoc) (symbol : Option TSymbol) (string : String) :
    Option TIntermNode × List Diag :=
  match symbol with
  | some (.anonSym cid cname cty member) =>
    let container := TIntermNode.symbol cid cname cty
    let constNode := TIntermNode.constantUnion [.uconst member] uintConstType
    let node0 := TIntermNode.binary .EOpIndexDirectStruct container constNode cty
    (some (node0.setType (cty.fields.getD member voidType)), [])
  | _ =>
    let variableHit : Option (Nat × String × TType × List ConstValue) :=
      match symbol with
      | some (.varSym id nm ty ca _) => some (id, nm, ty, ca)
      | _ => none
    let d1 : List Diag :=
      match symbol, variableHit with
      | some _, none => [⟨.variableNameExpected, loc⟩]
      | _, _ => []
    match variableHit with
    | none => (some (.symbol 0 string voidType), d1)
    | some (id, nm, ty, ca) =>
      if ty.qualifier.storage = .EvqConst then (some (.constantUnion ca ty), d1)
      else (some (.symbol id nm ty), d1)

/-- `TParseContext::findFunction`: look up the call's mangled name,
reporting a missing overload or a non-function hit.  The flag is the
built-in mark (the read-only mark of built-in-level symbols). -/
def findFunction (loc : TSourceLoc) (st : SymbolTable) (call : TFunction) :
    Option (TFunction × Bool) × List Diag :=
  match st.find call.mangledName with
  | none => (none, [⟨.noMatchingOverloadedFunction, loc⟩])
  | some (.funcSym nm mn op rt ps ro) => (some (⟨nm, mn, op, rt, ps⟩, ro), [])
  | some _ => (none, [⟨.functionNameExpected, loc⟩])

/-- Modelled from the spec: `TIntermediate::setAggregateOperator` wraps
the node into an aggregate (creating one when needed) and sets its
operator and type. -/
def setAggregateOperator (node : Option TIntermNode) (op : TOperator) (ty : TType) :
    TIntermNode :=
  match node with
  | some (.aggregate _ seq _) => .aggregate op seq ty
  | some other => .aggregate op [other] ty
  | none => .aggregate op [] ty

/-- Replace the precision of a type's qualifier. -/
def TType.withPrecision (t : TType) (p : TPrecisionQualifier) : TType :=
  match t with
  | .mk b q v mc mr a m f => .mk b { q with precision := p } v mc mr a m f

/-- `TParseContext::nonOpBuiltInCheck`: extra checking of built-in calls
not mapped to operators — sampler-derived return precision and the
textureGather constraints. -/
def nonOpBuiltInCheck (loc : TSourceLoc) (ctx : ParseContext) (fnCandidate : TFunction)
    (callNode : TIntermNode) : TIntermNode × List Diag :=
  let callNode1 :=
    if fnCandidate.returnType.qualifier.precision = .EpqNone ∧
        0 < fnCandidate.params.length ∧
        (fnCandidate.params.getD 0 ⟨none, voidType⟩).ty.basicType = .EbtSampler then
      match callNode.getAsAggregate with
      | some (_, seq) =>
        callNode.setType (callNode.getType.withPrecision
          ((seq.getD 0 recoveryFloatZero).getQualifier.precision))
      | none => callNode
    else callNode
  let gatherDiags :=
    if fnCandidate.name.startsWith "textureGather" = true then
      requireProfile loc ctx.profile maskNotEs ++
      profileRequires loc ctx.profile maskNotEs ctx.version 400 false ++
      (let lastArgIndex := fnCandidate.params.length - 1
       let lastTy := (fnCandidate.params.getD lastArgIndex ⟨none, voidType⟩).ty
       if lastTy.basicType = .EbtInt ∧ lastTy.isScalar = true then
         match callNode1.getAsAggregate with
         | some (_, seq) =>
           match (seq.getD lastArgIndex recoveryFloatZero).getAsConstantUnion with
           | some _ =>
             let value := (seq.getD lastArgIndex recoveryFloatZero).constIntValue
             if value < 0 ∨ 3 < value then [⟨.textureGatherComponentRange, loc⟩]
             else []
           | none => [⟨.textureGatherComponentConstant, loc⟩]
         | none => [⟨.textureGatherComponentConstant, loc⟩]
       else [])
    else []
  (callNode1, gatherDiags)

/-- The out/inout argument l-value checks of `handleFunctionCall`,
pairing each parameter with its argument node. -/
def outParamDiags (loc : TSourceLoc) : List TParameter → List TIntermNode → List Diag
  | [], _ => []
  | p :: ps, args =>
    (if p.ty.qualifier.storage = .EvqOut ∨ p.ty.qualifier.storage = .EvqInOut then
       (lValueErrorCheck loc (args.getD 0 recoveryFloatZero)).2 ++
       (if (lValueErrorCheck loc (args.getD 0 recoveryFloatZero)).1 = true then
          [⟨.constantPassedForOutParameter, loc⟩]
        else [])
     else []) ++ outParamDiags loc ps (args.drop 1)

/-- The branch structure of `TParseContext::handleFunctionCall`, up to
(not including) the generic null-recovery tail.  The external
`TIntermediate` builders `addBuiltInFunctionCall` and the `addConstructor`
chain are parameters. -/
def handleFunctionCallCore (ctx : ParseContext) (loc : TSourceLoc) (fnCall : TFunction)
    (intermNode : Option TIntermNode) (intermAggregate : Option TIntermNode)
    (addBuiltInFunctionCallF :
      TSourceLoc → TOperator → Bool → Option TIntermNode → TType → Option TIntermNode)
    (addConstructorF :
      TSourceLoc → Option TIntermNode → TType → TOperator → Option TIntermNode) :
    Option TIntermNode × List Diag :=
  let op := fnCall.builtInOp
  if op = .EOpArrayLength then
    let d1 : List Diag :=
      if 0 < fnCall.params.length then [⟨.methodAcceptsNoArguments, loc⟩] else []
    let lenAndDiag : Int × List Diag :=
      match intermNode with
      | some nd =>
        if nd.isTyped = true ∧ nd.getType.isArray = true ∧
            nd.getType.getArraySize ≠ 0 then
          ((nd.getType.getArraySize : Int), [])
        else (1, [⟨.arrayMustBeSizedForLengthMethod, loc⟩])
      | none => (1, [⟨.arrayMustBeSizedForLengthMethod, loc⟩])
    (some (.constantUnion [.iconst lenAndDiag.1] intConstType), d1 ++ lenAndDiag.2)
  else if op ≠ .EOpNull then
    let ce := constructorError loc intermNode fnCall op ctx.profile ctx.version
    if ce.1 = false then
      match addConstructorF loc intermNode ce.2.1 op with
      | none => (none, ce.2.2 ++ [⟨.cannotConstructWithTheseArguments, loc⟩])
      | some r => (some r, ce.2.2)
    else (none, ce.2.2)
  else
    let ff := findFunction loc ctx.symbolTable fnCall
    match ff.1 with
    | some (fnCandidate, builtIn) =>
      if builtIn = true ∧ fnCandidate.builtInOp ≠ .EOpNull then
        match addBuiltInFunctionCallF loc fnCandidate.builtInOp
            (decide (fnCandidate.params.length = 1)) intermNode
            fnCandidate.returnType with
        | none => (none, ff.2 ++ [⟨.builtInUnaryOperatorType, loc⟩])
        | some r => (some r, ff.2)
      else
        let result0 := setAggregateOperator intermAggregate .EOpFunctionCall
          fnCandidate.returnType
        let argSeq := match result0.getAsAggregate with
          | some (_, seq) => seq
          | none => []
        let outDs := outParamDiags loc fnCandidate.params argSeq
        if builtIn = true then
          let nb := nonOpBuiltInCheck loc ctx fnCandidate result0
          (some nb.1, ff.2 ++ outDs ++ nb.2)
        else (some result0, ff.2 ++ outDs)
    | none => (some recoveryFloatZero, ff.2)

/-- `TParseContext::handleFunctionCall` with its generic recovery tail:
a null result from any path is replaced by the `0.0f` const float
constant, so the handler never returns null. -/
def handleFunctionCall (ctx : ParseContext) (loc : TSourceLoc) (fnCall : TFunction)
    (intermNode : Option TIntermNode) (intermAggregate : Option TIntermNode)
    (addBuiltInFunctionCallF :
      TSourceLoc → TOperator → Bool → Option TIntermNode → TType → Option TIntermNode)
    (addConstructorF :
      TSourceLoc → Option TIntermNode → TType → TOperator → Option TIntermNode) :
    TIntermNode × List Diag :=
  match handleFunctionCallCore ctx loc fnCall intermNode intermAggregate
      addBuiltInFunctionCallF addConstructorF with
  | (none, ds) => (recoveryFloatZero, ds)
  | (some r, ds) => (r, ds)

/-! ## theorems -/

lemma charField_eq_none_iff (c : Char) : charField c = none ↔ c ∉ swizzleChars := by
  constructor
  · intro h hmem
    simp only [swizzleChars, List.mem_cons, List.not_mem_nil, or_false] at hmem
    rcases hmem with rfl | rfl | rfl | rfl | rfl | rfl | rfl | rfl | rfl | rfl | rfl | rfl <;>
      exact absurd h (by decide)
  · intro hmem
    simp only [swizzleChars, List.mem_cons, List.not_mem_nil, or_false, not_or] at hmem
    obtain ⟨h1, h2, h3, h4, h5, h6, h7, h8, h9, h10, h11, h12⟩ := hmem
    unfold charField
    rw [if_neg h1, if_neg h2, if_neg h3, if_neg h4, if_neg h5, if_neg h6,
        if_neg h7, if_neg h8, if_neg h9, if_neg h10, if_neg h11, if_neg h12]

lemma decodeFields_eq_none_iff (s : List Char) :
    decodeFields s = none ↔ ∃ c ∈ s, charField c = none := by
  induction s with
  | nil => simp [decodeFields]
  | cons c cs ih =>
    cases hc : charField c with
    | none =>
      simp only [decodeFields, hc]
      exact iff_of_true trivial ⟨c, List.mem_cons_self c cs, hc⟩
    | some p =>
      cases hd : decodeFields cs with
      | none =>
        simp only [decodeFields, hc, hd]
        obtain ⟨d, hdm, hdn⟩ := ih.mp hd
        exact iff_of_true trivial ⟨d, List.mem_cons_of_mem _ hdm, hdn⟩
      | some ps =>
        simp only [decodeFields, hc, hd]
        constructor
        · intro h; exact absurd h (by simp)
        · rintro ⟨d, hdm, hdn⟩
          rcases List.mem_cons.mp hdm with rfl | hdm2
          · rw [hc] at hdn; exact absurd hdn (by simp)
          · have hnone := ih.mpr ⟨d, hdm2, hdn⟩
            rw [hd] at hnone; exact absurd hnone (by simp)

lemma decodeFields_mem_fwd {s : List Char} {ps : List (Nat × FieldSet)} {p : Nat × FieldSet}
    (h : decodeFields s = some ps) (hp : p ∈ ps) :
    ∃ c ∈ s, charField c = some p := by
  induction s generalizing ps with
  | nil =>
    simp only [decodeFields, Option.some.injEq] at h
    subst h; cases hp
  | cons c cs ih =>
    cases hc : charField c with
    | none => simp [decodeFields, hc] at h
    | some q =>
      cases hd : decodeFields cs with
      | none => simp [decodeFields, hc, hd] at h
      | some qs =>
        simp only [decodeFields, hc, hd, Option.some.injEq] at h
        subst h
        rcases List.mem_cons.mp hp with rfl | hmem
        · exact ⟨c, List.mem_cons_self c cs, hc⟩
        · obtain ⟨d, hdm, hcf⟩ := ih hd hmem
          exact ⟨d, List.mem_cons_of_mem _ hdm, hcf⟩

lemma decodeFields_mem_bwd {s : List Char} {ps : List (Nat × FieldSet)} {c : Char}
    {p : Nat × FieldSet} (h : decodeFields s = some ps) (hc : c ∈ s)
    (hcf : charField c = some p) : p ∈ ps := by
  induction s generalizing ps with
  | nil => cases hc
  | cons d ds ih =>
    cases hd : charField d with
    | none => simp [decodeFields, hd] at h
    | some q =>
      cases hds : decodeFields ds with
      | none => simp [decodeFields, hd, hds] at h
      | some qs =>
        simp only [decodeFields, hd, hds, Option.some.injEq] at h
        subst h
        rcases List.mem_cons.mp hc with rfl | hmem
        · rw [hd] at hcf
          simp only [Option.some.injEq] at hcf
          subst hcf
          exact List.mem_cons_self _ _
        · exact List.mem_cons_of_mem _ (ih hds hmem)

lemma decodeFields_forall₂ {s : List Char} {ps : List (Nat × FieldSet)}
    (h : decodeFields s = some ps) :
    List.Forall₂ (fun c p => charField c = some p) s ps := by
  induction s generalizing ps with
  | nil =>
    simp only [decodeFields, Option.some.injEq] at h
    subst h; exact List.Forall₂.nil
  | cons c cs ih =>
    cases hc : charField c with
    | none => simp [decodeFields, hc] at h
    | some q =>
      cases hd : decodeFields cs with
      | none => simp [decodeFields, hc, hd] at h
      | some qs =>
        simp only [decodeFields, hc, hd, Option.some.injEq] at h
        subst h
        exact List.Forall₂.cons hc (ih hd)

lemma fieldsRangeSetCheck_some_eq_none_iff (v : Nat) (f : FieldSet)
    (ps : List (Nat × FieldSet)) :
    fieldsRangeSetCheck v (some f) ps = none ↔ ∀ p ∈ ps, p.1 < v ∧ p.2 = f := by
  induction ps generalizing f with
  | nil => simp [fieldsRangeSetCheck]
  | cons hd rest ih =>
    obtain ⟨off, s⟩ := hd
    simp only [fieldsRangeSetCheck]
    by_cases hv : v ≤ off
    · rw [if_pos hv]
      constructor
      · intro h; exact absurd h (by simp)
      · intro h
        exact absurd ((h (off, s) (List.mem_cons_self _ _)).1) (Nat.not_lt.mpr hv)
    · rw [if_neg hv]
      by_cases hs : s = f
      · subst hs
        rw [if_neg (fun hne => hne rfl)]
        rw [ih s]
        constructor
        · intro h p hp
          rcases List.mem_cons.mp hp with rfl | hmem
          · exact ⟨Nat.lt_of_not_le hv, rfl⟩
          · exact h p hmem
        · intro h p hp
          exact h p (List.mem_cons_of_mem _ hp)
      · rw [if_pos hs]
        constructor
        · intro h; exact absurd h (by simp)
        · intro h
          exact absurd ((h (off, s) (List.mem_cons_self _ _)).2) hs

lemma fieldsRangeSetCheck_none_eq_none_iff (v : Nat) (ps : List (Nat × FieldSet)) :
    fieldsRangeSetCheck v none ps = none ↔
      (∀ p ∈ ps, p.1 < v) ∧ ∀ p ∈ ps, ∀ q ∈ ps, p.2 = q.2 := by
  cases ps with
  | nil => simp [fieldsRangeSetCheck]
  | cons hd rest =>
    obtain ⟨off, s⟩ := hd
    simp only [fieldsRangeSetCheck]
    by_cases hv : v ≤ off
    · rw [if_pos hv]
      constructor
      · intro h; exact absurd h (by simp)
      · intro h
        exact absurd (h.1 (off, s) (List.mem_cons_self _ _)) (Nat.not_lt.mpr hv)
    · rw [if_neg hv]
      rw [fieldsRangeSetCheck_some_eq_none_iff]
      constructor
      · intro h
        have hall : ∀ p ∈ (off, s) :: rest, (p : Nat × FieldSet).1 < v ∧ p.2 = s := by
          intro p hp
          rcases List.mem_cons.mp hp with rfl | hmem
          · exact ⟨Nat.lt_of_not_le hv, rfl⟩
          · exact h p hmem
        refine ⟨fun p hp => (hall p hp).1, fun p hp q hq => ?_⟩
        rw [(hall p hp).2, (hall q hq).2]
      · rintro ⟨hr1, hr2⟩ p hp
        refine ⟨hr1 p (List.mem_cons_of_mem _ hp), ?_⟩
        exact hr2 p (List.mem_cons_of_mem _ hp) (off, s) (List.mem_cons_self _ _)

lemma forall₂_map_offsets {s : List Char} {ps : List (Nat × FieldSet)}
    (h : List.Forall₂ (fun c p => charField c = some p) s ps) :
    List.Forall₂ (fun c o => ∃ fs, charField c = some (o, fs)) s (ps.map Prod.fst) := by
  induction h with
  | nil => exact List.Forall₂.nil
  | @cons c p cs qs hr hrest ih =>
    obtain ⟨o, f⟩ := p
    exact List.Forall₂.cons ⟨f, hr⟩ ih

/-- C5: `parseVectorFields` fails — returning `false` with exactly one
diagnostic — precisely when the selector string is longer than four
characters, contains a character outside the three swizzle alphabets,
contains a character whose lane offset is not below the vector size, or
mixes characters of two different alphabets; on success the returned
offsets are the lane offsets of the characters, in order. -/
theorem parseVectorFields_spec (loc : TSourceLoc) (s : List Char) (v : Nat) :
    ((parseVectorFields loc s v).1 = none ↔
      4 < s.length ∨
      (∃ c ∈ s, c ∉ swizzleChars) ∨
      (∃ c ∈ s, ∃ off fs, charField c = some (off, fs) ∧ v ≤ off) ∨
      (∃ c1 ∈ s, ∃ c2 ∈ s, ∃ o1 f1 o2 f2,
        charField c1 = some (o1, f1) ∧ charField c2 = some (o2, f2) ∧ f1 ≠ f2)) ∧
    (parseVectorFields loc s v).2.length =
      (if (parseVectorFields loc s v).1 = none then 1 else 0) ∧
    ∀ offs, (parseVectorFields loc s v).1 = some offs →
      List.Forall₂ (fun c o => ∃ fs, charField c = some (o, fs)) s offs := by
  unfold parseVectorFields
  by_cases hlen : 4 < s.length
  · rw [if_pos hlen]
    refine ⟨iff_of_true rfl (Or.inl hlen), rfl, ?_⟩
    intro offs h
    exact absurd h (by simp)
  · rw [if_neg hlen]
    cases hdec : decodeFields s with
    | none =>
      dsimp only
      obtain ⟨c, hcm, hcn⟩ := (decodeFields_eq_none_iff s).mp hdec
      refine ⟨iff_of_true rfl
        (Or.inr (Or.inl ⟨c, hcm, (charField_eq_none_iff c).mp hcn⟩)), rfl, ?_⟩
      intro offs h
      exact absurd h (by simp)
    | some ps =>
      dsimp only
      cases hchk : fieldsRangeSetCheck v none ps with
      | some k =>
        dsimp only
        have hne : ¬ ((∀ p ∈ ps, p.1 < v) ∧ ∀ p ∈ ps, ∀ q ∈ ps, p.2 = q.2) := by
          intro hcontra
          have hc2 := (fieldsRangeSetCheck_none_eq_none_iff v ps).mpr hcontra
          rw [hchk] at hc2
          exact absurd hc2 (by simp)
        rw [not_and_or] at hne
        have hrhs : (∃ c ∈ s, ∃ off fs, charField c = some (off, fs) ∧ v ≤ off) ∨
            (∃ c1 ∈ s, ∃ c2 ∈ s, ∃ o1 f1 o2 f2,
              charField c1 = some (o1, f1) ∧ charField c2 = some (o2, f2) ∧ f1 ≠ f2) := by
          rcases hne with hne | hne
          · push_neg at hne
            obtain ⟨p, hpm, hpv⟩ := hne
            obtain ⟨c, hcm, hcf⟩ := decodeFields_mem_fwd hdec hpm
            exact Or.inl ⟨c, hcm, p.1, p.2, by rw [hcf], hpv⟩
          · push_neg at hne
            obtain ⟨p, hpm, q, hqm, hpq⟩ := hne
            obtain ⟨c1, hc1m, hc1f⟩ := decodeFields_mem_fwd hdec hpm
            obtain ⟨c2, hc2m, hc2f⟩ := decodeFields_mem_fwd hdec hqm
            exact Or.inr ⟨c1, hc1m, c2, hc2m, p.1, p.2, q.1, q.2,
              by rw [hc1f], by rw [hc2f], hpq⟩
        refine ⟨iff_of_true rfl (Or.inr (Or.inr hrhs)), rfl, ?_⟩
        intro offs h
        exact absurd h (by simp)
      | none =>
        dsimp only
        refine ⟨?_, rfl, ?_⟩
        · apply iff_of_false (by simp)
          rintro (h | ⟨c, hcm, hcn⟩ | ⟨c, hcm, off, fs, hcf, hoff⟩ |
            ⟨c1, hc1m, c2, hc2m, o1, f1, o2, f2, h1, h2, hnef⟩)
          · exact hlen h
          · have hnone : decodeFields s = none :=
              (decodeFields_eq_none_iff s).mpr ⟨c, hcm, (charField_eq_none_iff c).mpr hcn⟩
            rw [hdec] at hnone
            exact absurd hnone (by simp)
          · have hpm := decodeFields_mem_bwd hdec hcm hcf
            have hall := (fieldsRangeSetCheck_none_eq_none_iff v ps).mp hchk
            exact absurd (hall.1 _ hpm) (Nat.not_lt.mpr hoff)
          · have hp1 := decodeFields_mem_bwd hdec hc1m h1
            have hp2 := decodeFields_mem_bwd hdec hc2m h2
            have hall := (fieldsRangeSetCheck_none_eq_none_iff v ps).mp hchk
            exact hnef (hall.2 _ hp1 _ hp2)
        · intro offs h
          simp only [Option.some.injEq] at h
          subst h
          exact forall₂_map_offsets (decodeFields_forall₂ hdec)

/-- Witness for `parseVectorFields_spec`: the selector `zx` on a vec3
decodes to lanes 2 and 0. -/
theorem parseVectorFields_spec_witness :
    List.Forall₂ (fun c o => ∃ fs, charField c = some (o, fs)) ['z', 'x'] [2, 0] :=
  (parseVectorFields_spec ⟨0, 1⟩ ['z', 'x'] 3).2.2 [2, 0] rfl

lemma tooMany_not_mem_auxInterp (loc : TSourceLoc) (dst src : TQualifier) :
    (⟨ErrKind.tooManyStorageQualifiers, loc⟩ : Diag) ∉ mergeAuxInterpDiags loc dst src := by
  unfold mergeAuxInterpDiags
  split_ifs <;> simp

lemma tooMany_not_mem_ordering (loc : TSourceLoc) (dst src : TQualifier)
    (force : Bool) (version : Nat) :
    (⟨ErrKind.tooManyStorageQualifiers, loc⟩ : Diag) ∉
      mergeOrderingDiags loc dst src force version := by
  unfold mergeOrderingDiags
  split_ifs <;> simp

lemma tooMany_not_mem_precision (loc : TSourceLoc) (dst src : TQualifier) (force : Bool) :
    (⟨ErrKind.tooManyStorageQualifiers, loc⟩ : Diag) ∉ mergePrecisionDiags loc dst src force := by
  unfold mergePrecisionDiags
  split_ifs <;> simp

lemma mergeStorage_fst_table (a b : TStorageQualifier) :
    (mergeStorage a b).1 =
      (if a = .EvqTemporary ∨ a = .EvqGlobal then b
       else if (a = .EvqIn ∧ b = .EvqOut) ∨ (a = .EvqOut ∧ b = .EvqIn) then .EvqInOut
       else if (a = .EvqIn ∧ b = .EvqConst) ∨ (a = .EvqConst ∧ b = .EvqIn) then .EvqConstReadOnly
       else a) := by
  revert a b
  decide

lemma mergeStorage_snd_iff (a b : TStorageQualifier) :
    (mergeStorage a b).2 = true ↔
      (¬(a = .EvqTemporary ∨ a = .EvqGlobal) ∧
       ¬((a = .EvqIn ∧ b = .EvqOut) ∨ (a = .EvqOut ∧ b = .EvqIn)) ∧
       ¬((a = .EvqIn ∧ b = .EvqConst) ∨ (a = .EvqConst ∧ b = .EvqIn)) ∧
       b ≠ .EvqTemporary) := by
  revert a b
  decide

/-- C6: `mergeQualifiers` computes the merged storage qualifier exactly
per the merge table — temporary/global destination takes the source
storage, in plus out (either order) gives inout, in plus const (either
order) gives const-read-only — and in every other case with a
non-temporary source it emits the too-many-storage-qualifiers error and
leaves the destination storage unchanged. -/
theorem mergeQualifiers_storage_table (loc : TSourceLoc) (dst src : TQualifier)
    (force : Bool) (version : Nat) :
    ((mergeQualifiers loc dst src force version).1.storage =
      (if dst.storage = .EvqTemporary ∨ dst.storage = .EvqGlobal then src.storage
       else if (dst.storage = .EvqIn ∧ src.storage = .EvqOut) ∨
               (dst.storage = .EvqOut ∧ src.storage = .EvqIn) then .EvqInOut
       else if (dst.storage = .EvqIn ∧ src.storage = .EvqConst) ∨
               (dst.storage = .EvqConst ∧ src.storage = .EvqIn) then .EvqConstReadOnly
       else dst.storage)) ∧
    ((⟨ErrKind.tooManyStorageQualifiers, loc⟩ : Diag) ∈
        (mergeQualifiers loc dst src force version).2 ↔
      (¬(dst.storage = .EvqTemporary ∨ dst.storage = .EvqGlobal) ∧
       ¬((dst.storage = .EvqIn ∧ src.storage = .EvqOut) ∨
         (dst.storage = .EvqOut ∧ src.storage = .EvqIn)) ∧
       ¬((dst.storage = .EvqIn ∧ src.storage = .EvqConst) ∨
         (dst.storage = .EvqConst ∧ src.storage = .EvqIn)) ∧
       src.storage ≠ .EvqTemporary)) := by
  constructor
  · exact mergeStorage_fst_table dst.storage src.storage
  · rw [← mergeStorage_snd_iff dst.storage src.storage]
    have hA := tooMany_not_mem_auxInterp loc dst src
    have hO := tooMany_not_mem_ordering loc dst src force version
    have hP := tooMany_not_mem_precision loc dst src force
    have hR : (⟨ErrKind.tooManyStorageQualifiers, loc⟩ : Diag) ∉
        (if mergeRepeatedSingleton dst src = true then
          [(⟨ErrKind.replicatedQualifiers, loc⟩ : Diag)] else []) := by
      split_ifs <;> simp
    simp only [mergeQualifiers, List.mem_append, hA, hO, hP, hR, false_or, or_false]
    split_ifs with h <;> simp [h]

/-- C7: merging a qualifier with itself under `force = true` is the
identity: storage, precision, every boolean singleton flag and every
layout field are unchanged (unset layout fields stay unset). -/
theorem mergeQualifiers_self_id (loc : TSourceLoc) (q : TQualifier) (version : Nat) :
    (mergeQualifiers loc q q true version).1 = q := by
  have hs : ∀ a : TStorageQualifier, (mergeStorage a a).1 = a := by decide
  obtain ⟨s, p, i1, c1, sm, fl, np, pa, sa, sh, co, vo, re, ro, wo, lm, lp, ll, lb⟩ := q
  simp only [mergeQualifiers, mergeLayoutQualifiers]
  simp [hs, Bool.or_self, ite_self]

@[simp] lemma TType.withStorage_isArray (t : TType) (s : TStorageQualifier) :
    (t.withStorage s).isArray = t.isArray := by
  cases t; rfl

@[simp] lemma TType.withStorage_getArraySize (t : TType) (s : TStorageQualifier) :
    (t.withStorage s).getArraySize = t.getArraySize := by
  cases t; rfl

lemma constructorScan_aux_invariant (cm : Bool) (op : TOperator) (ty : TType)
    (ps : List TParameter) (st : ConstructorScan)
    (h1 : st.overFull = true → st.full = true)
    (h2 : st.full = true → op ≠ .EOpConstructStruct ∧ ty.isArray = false) :
    ((ps.foldl (constructorScanStep cm op ty) st).overFull = true →
      (ps.foldl (constructorScanStep cm op ty) st).full = true) ∧
    ((ps.foldl (constructorScanStep cm op ty) st).full = true →
      op ≠ .EOpConstructStruct ∧ ty.isArray = false) := by
  induction ps generalizing st with
  | nil => exact ⟨h1, h2⟩
  | cons p rest ih =>
    apply ih
    · intro hov
      simp only [constructorScanStep, Bool.or_eq_true] at hov ⊢
      rcases hov with hov | hov
      · exact Or.inl (h1 hov)
      · exact Or.inl hov
    · intro hfl
      simp only [constructorScanStep, Bool.or_eq_true, Bool.and_eq_true,
        decide_eq_true_eq, Bool.not_eq_true'] at hfl
      rcases hfl with hfl | ⟨⟨hop, harr⟩, _⟩
      · exact h2 hfl
      · exact ⟨hop, harr⟩

lemma constructorScan_overFull_imp (op : TOperator) (ty : TType) (ps : List TParameter)
    (h : (constructorScan op ty ps).overFull = true) :
    op ≠ .EOpConstructStruct ∧ ty.isArray = false := by
  have hinv := constructorScan_aux_invariant (isMatrixConstructOp op) op ty ps
    ⟨0, true, false, false, false, false⟩ (by intro hc; exact absurd hc (by simp))
    (by intro hc; exact absurd hc (by simp))
  exact hinv.2 (hinv.1 h)

/-- C3 counterexample: `mat2(mat2, mat2)` is overfull in the claim's
sense — the first argument already supplies the full object size of the
target and another argument follows — yet `constructorError` takes the
matrix-from-matrix early return and reports no error at all (desktop
core profile, version 150). -/
theorem constructorError_overfull_matrix_counterexample :
    (constructorScan .EOpConstructMat2x2 mat2TempType
        [⟨none, mat2TempType⟩, ⟨none, mat2TempType⟩]).overFull = true ∧
    constructorError ⟨0, 1⟩ (some (.aggregate .EOpSequence [] mat2TempType))
        ⟨"", "", .EOpNull, mat2TempType, [⟨none, mat2TempType⟩, ⟨none, mat2TempType⟩]⟩
        .EOpConstructMat2x2 .ECoreProfile 150 =
      (false, mat2TempType, []) := by
  exact ⟨rfl, rfl⟩

/-- C3 amended: whenever the argument loop of `constructorError` ends
with `overFull` set and the call is neither a matrix-from-matrix
construction nor passes an array argument, `constructorError` emits the
too-many-arguments diagnostic and returns true. -/
theorem constructorError_overfull_amended (loc : TSourceLoc) (node : Option TIntermNode)
    (function : TFunction) (op : TOperator) (profile : EProfile) (version : Nat)
    (hover : (constructorScan op function.returnType function.params).overFull = true)
    (hmim : (constructorScan op function.returnType function.params).matrixInMatrix = false)
    (harr : (constructorScan op function.returnType function.params).arrayArg = false) :
    (constructorError loc node function op profile version).1 = true ∧
    (constructorError loc node function op profile version).2.2 =
      [⟨.tooManyArguments, loc⟩] := by
  obtain ⟨hop, hnoarr⟩ := constructorScan_overFull_imp op function.returnType
    function.params hover
  unfold constructorError
  dsimp only
  split_ifs with h1 h2 h3 h4 <;>
    first
      | exact ⟨rfl, rfl⟩
      | simp_all

/-- Witness for `constructorError_overfull_amended`: `vec4(vec4, float)`
has one argument too many and gets the too-many-arguments error. -/
theorem constructorError_overfull_amended_witness :
    (constructorError ⟨0, 1⟩ (some (.aggregate .EOpSequence [] vec4TempType))
        ⟨"", "", .EOpNull, vec4TempType, [⟨none, vec4TempType⟩, ⟨none, floatTempType⟩]⟩
        .EOpConstructVec4 .ECoreProfile 150).1 = true ∧
    (constructorError ⟨0, 1⟩ (some (.aggregate .EOpSequence [] vec4TempType))
        ⟨"", "", .EOpNull, vec4TempType, [⟨none, vec4TempType⟩, ⟨none, floatTempType⟩]⟩
        .EOpConstructVec4 .ECoreProfile 150).2.2 = [⟨.tooManyArguments, ⟨0, 1⟩⟩] :=
  constructorError_overfull_amended ⟨0, 1⟩ (some (.aggregate .EOpSequence [] vec4TempType))
    ⟨"", "", .EOpNull, vec4TempType, [⟨none, vec4TempType⟩, ⟨none, floatTempType⟩]⟩
    .EOpConstructVec4 .ECoreProfile 150 rfl rfl rfl

lemma firstNullIndex_none_iff : ∀ (strs : List (Option (List Char))) (n : Nat),
    firstNullIndex strs n = none ↔ ∀ i < n, strs.getD i (some []) ≠ none := by
  intro strs
  induction strs with
  | nil =>
    intro n
    cases n <;> simp [firstNullIndex]
  | cons s rest ih =>
    intro n
    cases n with
    | zero => simp [firstNullIndex]
    | succ m =>
      cases s with
      | none =>
        apply iff_of_false (by simp [firstNullIndex])
        intro h
        exact h 0 (Nat.succ_pos m) rfl
      | some str =>
        simp only [firstNullIndex, Option.map_eq_none']
        rw [ih m]
        constructor
        · intro h i hi
          cases i with
          | zero => simp
          | succ j =>
            have := h j (by omega)
            simpa using this
        · intro h j hj
          have := h (j + 1) (by omega)
          simpa using this

lemma firstNullIndex_some_iff : ∀ (strs : List (Option (List Char))) (n i : Nat),
    firstNullIndex strs n = some i ↔
      (i < n ∧ strs.getD i (some []) = none ∧ ∀ j < i, strs.getD j (some []) ≠ none) := by
  intro strs
  induction strs with
  | nil =>
    intro n i
    cases n <;> simp [firstNullIndex]
  | cons s rest ih =>
    intro n i
    cases n with
    | zero => simp [firstNullIndex]
    | succ m =>
      cases s with
      | none =>
        simp only [firstNullIndex]
        constructor
        · intro h
          simp only [Option.some.injEq] at h
          subst h
          exact ⟨Nat.succ_pos m, rfl, by intro j hj; omega⟩
        · rintro ⟨hi, hnone, hprev⟩
          cases i with
          | zero => rfl
          | succ k =>
            exact absurd (show (none :: rest).getD 0 (some []) = none from rfl)
              (hprev 0 (Nat.succ_pos k))
      | some str =>
        simp only [firstNullIndex, Option.map_eq_some']
        constructor
        · rintro ⟨k, hk, hki⟩
          subst hki
          obtain ⟨h1, h2, h3⟩ := (ih m k).mp hk
          refine ⟨by omega, by simpa using h2, ?_⟩
          intro j hj
          cases j with
          | zero => simp
          | succ l =>
            have := h3 l (by omega)
            simpa using this
        · rintro ⟨hi, hnone, hprev⟩
          cases i with
          | zero => simp at hnone
          | succ k =>
            refine ⟨k, (ih m k).mpr ⟨by omega, by simpa using hnone, ?_⟩, rfl⟩
            intro j hj
            have := hprev (j + 1) (by omega)
            simpa using this

/-- C1 counterexample: with a whitespace-only first string followed by a
null second string, `parseShaderStrings` returns false (with the located
null-string error), although the claim promises success for a
whitespace-only first string. -/
theorem parseShaderStrings_whitespace_null_counterexample :
    ([' '].take 1).all isShaderWhitespace = true ∧
    (parseShaderStrings (some [some [' '], none]) [1, 1] 2 id 0).1 = false ∧
    (parseShaderStrings (some [some [' '], none]) [1, 1] 2 id 0).2 =
      [⟨.nullShaderSourceString, ⟨1, 1⟩⟩] :=
  ⟨rfl, rfl, rfl⟩

/-- C1 amended: `parseShaderStrings` returns true for a null string
array, zero strings, or a zero-length first string; otherwise, if some
sub-string is null it emits one error located at the first such string
index and returns false; otherwise a whitespace-only first string
returns true; otherwise the parse and `finalize` run and the result is
true exactly when the accumulated error count is zero. -/
theorem parseShaderStrings_amended (strings : List (Option (List Char)))
    (lengths : List Nat) (numStrings : Nat) (run : Nat → Nat) (numErrors : Nat) :
    (parseShaderStrings none lengths numStrings run numErrors = (true, [])) ∧
    (numStrings = 0 ∨ lengths.getD 0 0 = 0 →
      parseShaderStrings (some strings) lengths numStrings run numErrors = (true, [])) ∧
    (∀ i, numStrings ≠ 0 → lengths.getD 0 0 ≠ 0 →
      i < numStrings → strings.getD i (some []) = none →
      (∀ j < i, strings.getD j (some []) ≠ none) →
      parseShaderStrings (some strings) lengths numStrings run numErrors =
        (false, [⟨.nullShaderSourceString, ⟨i, 1⟩⟩])) ∧
    (∀ s0, numStrings ≠ 0 → lengths.getD 0 0 ≠ 0 →
      (∀ i < numStrings, strings.getD i (some []) ≠ none) →
      strings.getD 0 (some []) = some s0 →
      ((s0.take (lengths.getD 0 0)).all isShaderWhitespace = true →
        parseShaderStrings (some strings) lengths numStrings run numErrors = (true, [])) ∧
      ((s0.take (lengths.getD 0 0)).all isShaderWhitespace = false →
        parseShaderStrings (some strings) lengths numStrings run numErrors =
          (decide (run numErrors = 0), []))) := by
  refine ⟨rfl, ?_, ?_, ?_⟩
  · intro h
    simp only [parseShaderStrings]
    rw [if_pos h]
  · intro i h0 hl hi hnull hprev
    have hfn : firstNullIndex strings numStrings = some i :=
      (firstNullIndex_some_iff strings numStrings i).mpr ⟨hi, hnull, hprev⟩
    have hcond : ¬(numStrings = 0 ∨ lengths.getD 0 0 = 0) := by
      rintro (h | h)
      · exact h0 h
      · exact hl h
    simp only [parseShaderStrings]
    rw [if_neg hcond, hfn]
  · intro s0 h0 hl hnonull hs0
    have hfn : firstNullIndex strings numStrings = none :=
      (firstNullIndex_none_iff strings numStrings).mpr hnonull
    have hcond : ¬(numStrings = 0 ∨ lengths.getD 0 0 = 0) := by
      rintro (h | h)
      · exact h0 h
      · exact hl h
    constructor
    · intro hws
      simp only [parseShaderStrings]
      rw [if_neg hcond, hfn]
      dsimp only
      rw [hs0]
      dsimp only [Option.getD]
      rw [if_pos hws]
    · intro hws
      simp only [parseShaderStrings]
      rw [if_neg hcond, hfn]
      dsimp only
      rw [hs0]
      dsimp only [Option.getD]
      rw [if_neg (by rw [hws]; exact Bool.false_ne_true)]

/-- Witness for `parseShaderStrings_amended`: a one-string input `a`
parses and succeeds when the driver leaves the error count at zero. -/
theorem parseShaderStrings_amended_witness :
    parseShaderStrings (some [some ['a']]) [1] 1 (fun n => n) 0 = (true, []) := by
  have h := (parseShaderStrings_amended [some ['a']] [1] 1 (fun n => n) 0).2.2.2
    ['a'] (by decide) (by decide)
    (by
      rintro (_ | i) hi
      · simp
      · omega)
    rfl
  simpa using h.2 rfl

lemma profileRequires_kind (loc : TSourceLoc) (profile : EProfile) (mask : EProfileMask)
    (version minVersion : Nat) (ext : Bool) :
    ∀ d ∈ profileRequires loc profile mask version minVersion ext,
      d.kind = .versionRequired := by
  unfold profileRequires
  split_ifs <;> simp

lemma requireProfile_kind (loc : TSourceLoc) (profile : EProfile) (mask : EProfileMask) :
    ∀ d ∈ requireProfile loc profile mask, d.kind = .profileRequired := by
  unfold requireProfile
  split_ifs <;> simp

lemma wrapup_none_fst (loc : TSourceLoc) (seqs : List TIntermNode)
    (stmts : Option TIntermNode) :
    (wrapupSwitchSubsequence loc seqs stmts none).1 =
      (match stmts with
       | none => seqs
       | some s => seqs ++ [s.setOperator .EOpSequence]) := by
  cases stmts <;> rfl

lemma wrapup_none_snd_kind (loc : TSourceLoc) (seqs : List TIntermNode)
    (stmts : Option TIntermNode) :
    ∀ d ∈ (wrapupSwitchSubsequence loc seqs stmts none).2,
      d.kind = .statementsBeforeFirstCase := by
  cases stmts with
  | none => simp [wrapupSwitchSubsequence]
  | some s =>
    simp only [wrapupSwitchSubsequence]
    split_ifs <;> simp

lemma switchCondOk_iff (expression : Option TIntermNode) :
    switchCondOk expression = true ↔
      ∃ e, expression = some e ∧
        (e.getBasicType = .EbtInt ∨ e.getBasicType = .EbtUint) ∧
        e.getType.isArray = false ∧ e.getType.isMatrix = false ∧
        e.getType.isVector = false := by
  cases expression with
  | none => simp [switchCondOk]
  | some e =>
    simp [switchCondOk, Bool.and_eq_true, Bool.or_eq_true, Bool.not_eq_true', and_assoc]


lemma wrapup_none_none (loc : TSourceLoc) (seqs : List TIntermNode) :
    wrapupSwitchSubsequence loc seqs none none = (seqs, []) := rfl

lemma wrapup_some_none (loc : TSourceLoc) (seqs : List TIntermNode) (s : TIntermNode) :
    wrapupSwitchSubsequence loc seqs (some s) none =
      (seqs ++ [s.setOperator .EOpSequence],
       if seqs.length = 0 then [⟨.statementsBeforeFirstCase, loc⟩] else []) := rfl

/-- C8: `addSwitch` emits the scalar-integer-condition error exactly when
the expression is not a present, non-array, non-matrix, non-vector int
or uint; with an empty accumulated switch sequence it returns the
expression itself (no switch node); with a non-empty sequence but no
trailing statements it emits the trailing-statements error and returns
the expression; otherwise it returns a switch node over the expression
and the accumulated body. -/
theorem addSwitch_spec (loc : TSourceLoc) (expression lastStatements : Option TIntermNode)
    (switchSequence : List TIntermNode) (profile : EProfile) (version : Nat) :
    ((⟨ErrKind.switchConditionScalarInteger, loc⟩ : Diag) ∈
        (addSwitch loc expression lastStatements switchSequence profile version).2.2 ↔
      ¬ ∃ e, expression = some e ∧
        (e.getBasicType = .EbtInt ∨ e.getBasicType = .EbtUint) ∧
        e.getType.isArray = false ∧ e.getType.isMatrix = false ∧
        e.getType.isVector = false) ∧
    (switchSequence = [] ∧ lastStatements = none →
      (addSwitch loc expression lastStatements switchSequence profile version).1 =
        expression) ∧
    (switchSequence ≠ [] ∧ lastStatements = none →
      (addSwitch loc expression lastStatements switchSequence profile version).1 =
        expression ∧
      (⟨ErrKind.lastCaseLabelNeedsStatements, loc⟩ : Diag) ∈
        (addSwitch loc expression lastStatements switchSequence profile version).2.2) ∧
    (∀ stmts, lastStatements = some stmts →
      (addSwitch loc expression lastStatements switchSequence profile version).1 =
        some (.switchNode expression (.aggregate .EOpSequence
          (switchSequence ++ [stmts.setOperator .EOpSequence]) voidType))) := by
  have hg1mem : (⟨ErrKind.switchConditionScalarInteger, loc⟩ : Diag) ∉
      profileRequires loc profile maskEs version 300 false := by
    intro hmem
    exact absurd (profileRequires_kind loc profile maskEs version 300 false _ hmem)
      (by simp)
  have hg2mem : (⟨ErrKind.switchConditionScalarInteger, loc⟩ : Diag) ∉
      profileRequires loc profile maskNoProfile version 130 false := by
    intro hmem
    exact absurd (profileRequires_kind loc profile maskNoProfile version 130 false _ hmem)
      (by simp)
  have hnot : switchCondOk expression = false ↔
      ¬ ∃ e, expression = some e ∧
        (e.getBasicType = .EbtInt ∨ e.getBasicType = .EbtUint) ∧
        e.getType.isArray = false ∧ e.getType.isMatrix = false ∧
        e.getType.isVector = false := by
    rw [← switchCondOk_iff]
    cases switchCondOk expression <;> simp
  have hcmem : (⟨ErrKind.switchConditionScalarInteger, loc⟩ : Diag) ∈
      (if switchCondOk expression = false then
        [(⟨ErrKind.switchConditionScalarInteger, loc⟩ : Diag)] else []) ↔
      switchCondOk expression = false := by
    split_ifs with h <;> simp [h]
  refine ⟨?_, ?_, ?_, ?_⟩
  · rw [← hnot, ← hcmem]
    cases lastStatements with
    | none =>
      cases switchSequence with
      | nil =>
        simp only [addSwitch, wrapup_none_none, List.length_nil, if_pos rfl]
        simp [List.mem_append, hg1mem, hg2mem]
      | cons hd tl =>
        simp only [addSwitch, wrapup_none_none, Option.isNone_none]
        rw [if_neg (by simp : ¬((hd :: tl).length = 0)), if_pos trivial]
        simp [List.mem_append, hg1mem, hg2mem]
    | some stmts =>
      simp only [addSwitch, wrapup_some_none, Option.isNone_some]
      rw [if_neg (by simp : ¬((switchSequence ++ [stmts.setOperator .EOpSequence]).length = 0)),
        if_neg (by simp : ¬(false = true))]
      have hwmem : (⟨ErrKind.switchConditionScalarInteger, loc⟩ : Diag) ∉
          (if switchSequence.length = 0 then
            [(⟨ErrKind.statementsBeforeFirstCase, loc⟩ : Diag)] else []) := by
        split_ifs <;> simp
      simp [List.mem_append, hg1mem, hg2mem, hwmem]
  · rintro ⟨hseq, hls⟩
    subst hseq
    subst hls
    rfl
  · rintro ⟨hseq, hls⟩
    subst hls
    cases switchSequence with
    | nil => exact absurd rfl hseq
    | cons hd tl =>
      constructor
      · simp only [addSwitch, wrapup_none_none, Option.isNone_none]
        rw [if_neg (by simp : ¬((hd :: tl).length = 0)), if_pos trivial]
      · simp only [addSwitch, wrapup_none_none, Option.isNone_none]
        rw [if_neg (by simp : ¬((hd :: tl).length = 0)), if_pos trivial]
        exact List.mem_append.mpr (Or.inr (by simp))
  · intro stmts h
    subst h
    simp only [addSwitch, wrapup_some_none, Option.isNone_some]
    rw [if_neg (by simp : ¬((switchSequence ++ [stmts.setOperator .EOpSequence]).length = 0)),
      if_neg (by simp : ¬(false = true))]

/-- Witness for `addSwitch_spec`: a switch over `x` with no cases at all
degenerates to the bare expression node. -/
theorem addSwitch_spec_witness :
    (addSwitch ⟨0, 1⟩ (some (.symbol 1 "x" intTempType)) none [] .ECoreProfile 330).1 =
      some (.symbol 1 "x" intTempType) :=
  (addSwitch_spec ⟨0, 1⟩ (some (.symbol 1 "x" intTempType)) none [] .ECoreProfile
    330).2.1 ⟨rfl, rfl⟩

lemma swizzleHasDuplicate_eq_false_iff : ∀ (vals seen : List Int),
    swizzleHasDuplicate seen vals = false ↔
      vals.Nodup ∧ ∀ v ∈ vals, v ∉ seen := by
  intro vals
  induction vals with
  | nil =>
    intro seen
    simp [swizzleHasDuplicate]
  | cons v rest ih =>
    intro seen
    simp only [swizzleHasDuplicate]
    by_cases hv : v ∈ seen
    · rw [if_pos hv]
      apply iff_of_false (by simp)
      rintro ⟨_, hall⟩
      exact hall v (by simp) hv
    · rw [if_neg hv]
      rw [ih (v :: seen)]
      constructor
      · rintro ⟨hnodup, hall⟩
        refine ⟨List.nodup_cons.mpr ⟨?_, hnodup⟩, ?_⟩
        · intro hvr
          exact hall v hvr (by simp)
        · intro u hu
          rcases List.mem_cons.mp hu with rfl | hu2
          · exact hv
          · intro hus
            exact hall u hu2 (by simp [hus])
      · rintro ⟨hnodup, hall⟩
        obtain ⟨hvr, hnodup2⟩ := List.nodup_cons.mp hnodup
        refine ⟨hnodup2, ?_⟩
        intro u hu hmem
        rcases List.mem_cons.mp hmem with rfl | hus
        · exact hvr hu
        · exact hall u (List.mem_cons_of_mem _ hu) hus

lemma swizzleHasDuplicate_nil_iff (vals : List Int) :
    swizzleHasDuplicate [] vals = true ↔ ¬vals.Nodup := by
  constructor
  · intro h hn
    have := (swizzleHasDuplicate_eq_false_iff vals []).mpr ⟨hn, by simp⟩
    rw [h] at this
    exact absurd this (by simp)
  · intro h
    cases hd : swizzleHasDuplicate [] vals with
    | true => rfl
    | false =>
      exact absurd ((swizzleHasDuplicate_eq_false_iff vals []).mp hd).1 h

/-- C10: on a VectorSwizzle binary node whose left side passes the
l-value check, `lValueErrorCheck` reports the duplicate-component error
(returning true) exactly when the constant selector aggregate on the
right picks some vector component more than once; with all-distinct
components it returns the left side's non-error result. -/
theorem lValueErrorCheck_swizzle_spec (loc : TSourceLoc) (l : TIntermNode)
    (aggOp : TOperator) (elems : List TIntermNode) (rty ty : TType)
    (hleft : lValueErrorCheck loc l = (false, []))
    (helems : ∀ e ∈ elems, e.getAsConstantUnion.isSome = true) :
    (((lValueErrorCheck loc (.binary .EOpVectorSwizzle l
        (.aggregate aggOp elems rty) ty)).1 = true) ↔
      ¬(elems.map TIntermNode.constIntValue).Nodup) ∧
    ((elems.map TIntermNode.constIntValue).Nodup →
      lValueErrorCheck loc (.binary .EOpVectorSwizzle l
        (.aggregate aggOp elems rty) ty) = (false, [])) ∧
    (¬(elems.map TIntermNode.constIntValue).Nodup →
      lValueErrorCheck loc (.binary .EOpVectorSwizzle l
        (.aggregate aggOp elems rty) ty) =
        (true, [⟨.lValueSwizzleDuplicateComponents, loc⟩])) := by
  have hagg : (TIntermNode.aggregate aggOp elems rty).getAsAggregate =
      some (aggOp, elems) := rfl
  by_cases hdup : (elems.map TIntermNode.constIntValue).Nodup
  · have hfalse : swizzleHasDuplicate [] (elems.map TIntermNode.constIntValue) = false :=
      (swizzleHasDuplicate_eq_false_iff _ []).mpr ⟨hdup, by simp⟩
    have hresult : lValueErrorCheck loc (.binary .EOpVectorSwizzle l
        (.aggregate aggOp elems rty) ty) = (false, []) := by
      simp only [lValueErrorCheck, hleft, hagg]
      rw [if_pos trivial, if_neg (by rw [hfalse]; exact Bool.false_ne_true)]
    refine ⟨?_, fun _ => hresult, fun h => absurd hdup h⟩
    rw [hresult]
    simp [hdup]
  · have htrue : swizzleHasDuplicate [] (elems.map TIntermNode.constIntValue) = true :=
      (swizzleHasDuplicate_nil_iff _).mpr hdup
    have hresult : lValueErrorCheck loc (.binary .EOpVectorSwizzle l
        (.aggregate aggOp elems rty) ty) =
        (true, [⟨.lValueSwizzleDuplicateComponents, loc⟩]) := by
      simp only [lValueErrorCheck, hleft, hagg]
      rw [if_pos trivial, if_pos htrue]
      simp
    refine ⟨?_, fun h => absurd h hdup, fun _ => hresult⟩
    rw [hresult]
    simp [hdup]

/-- Witness for `lValueErrorCheck_swizzle_spec`: an assignment target
`v.xx` (two selections of lane 0) gets the duplicate-component error. -/
theorem lValueErrorCheck_swizzle_spec_witness :
    lValueErrorCheck ⟨0, 1⟩ (.binary .EOpVectorSwizzle
      (.symbol 1 "v" vec4TempType)
      (.aggregate .EOpSequence
        [.constantUnion [.iconst 0] intConstType,
         .constantUnion [.iconst 0] intConstType] intTempType)
      floatTempType) =
    (true, [⟨.lValueSwizzleDuplicateComponents, ⟨0, 1⟩⟩]) :=
  (lValueErrorCheck_swizzle_spec ⟨0, 1⟩ (.symbol 1 "v" vec4TempType) .EOpSequence
    [.constantUnion [.iconst 0] intConstType,
     .constantUnion [.iconst 0] intConstType] intTempType floatTempType
    rfl (by decide)).2.2 (by decide)


lemma variableCheck_nonvoid (ctx : ParseContext) (loc : TSourceLoc) (node : TIntermNode)
    (h : node.getBasicType ≠ .EbtVoid) :
    (variableCheck ctx loc node).1 = node ∧
    (variableCheck ctx loc node).2.1 = ctx ∧
    ∀ d ∈ (variableCheck ctx loc node).2.2, d.kind = .versionRequired := by
  cases node with
  | symbol id nm ty =>
    have hv : ¬ty.basicType = .EbtVoid := h
    simp only [variableCheck, TIntermNode.getAsSymbolNode]
    rw [if_neg hv]
    cases hs : ty.qualifier.storage <;>
      refine ⟨rfl, rfl, ?_⟩ <;>
      first
        | exact fun d hd => absurd hd (List.not_mem_nil d)
        | exact profileRequires_kind loc ctx.profile maskNoProfile ctx.version 120 false
  | constantUnion v ty => exact ⟨rfl, rfl, fun d hd => absurd hd (List.not_mem_nil d)⟩
  | binary op l r ty => exact ⟨rfl, rfl, fun d hd => absurd hd (List.not_mem_nil d)⟩
  | unary op o ty => exact ⟨rfl, rfl, fun d hd => absurd hd (List.not_mem_nil d)⟩
  | aggregate op s ty => exact ⟨rfl, rfl, fun d hd => absurd hd (List.not_mem_nil d)⟩
  | branch e => exact ⟨rfl, rfl, fun d hd => absurd hd (List.not_mem_nil d)⟩
  | switchNode e b => exact ⟨rfl, rfl, fun d hd => absurd hd (List.not_mem_nil d)⟩
  | methodNode b nm ty => exact ⟨rfl, rfl, fun d hd => absurd hd (List.not_mem_nil d)⟩

lemma updateMaxArraySize_kind (loc : TSourceLoc) (st : SymbolTable) (node : TIntermNode)
    (k : Int) :
    ∀ d ∈ (updateMaxArraySize loc st node k).2, d.kind = .arrayVariableNameExpected := by
  unfold updateMaxArraySize
  cases node.getAsSymbolNode with
  | none => simp
  | some trip =>
    obtain ⟨id, nm, ty⟩ := trip
    dsimp only
    split_ifs with h1
    · simp
    · cases st.find nm with
      | none => simp
      | some sym => cases sym <;> simp

/-- C2: a bracket dereference on a non-const array base with a
compile-time-constant index k produces an IndexDirect node over base and
index; on a sized array the array-index-out-of-range error is emitted
exactly when k < 0 or k is at least the array size and the symbol table
is untouched; on an unsized array no range error is emitted and the
symbol table becomes `updateMaxArraySize` applied at k. -/
theorem handleBracketDereference_constIndex_spec (ctx : ParseContext) (loc : TSourceLoc)
    (base index : TIntermNode)
    (hvoid : base.getBasicType ≠ .EbtVoid)
    (harr : base.getType.isArray = true)
    (hnc : base.getType.qualifier.storage ≠ .EvqConst)
    (hic : index.getQualifier.storage = .EvqConst) :
    (∃ ty, (handleBracketDereference ctx loc base index).1 =
      .binary .EOpIndexDirect base index ty) ∧
    (0 < base.getType.getArraySize →
      ((handleBracketDereference ctx loc base index).2.1.symbolTable =
        ctx.symbolTable) ∧
      ((⟨ErrKind.arrayIndexOutOfRange, loc⟩ : Diag) ∈
          (handleBracketDereference ctx loc base index).2.2 ↔
        (index.constIntValue < 0 ∨
          (base.getType.getArraySize : Int) ≤ index.constIntValue))) ∧
    (base.getType.getArraySize = 0 →
      ((handleBracketDereference ctx loc base index).2.1.symbolTable =
        (updateMaxArraySize loc ctx.symbolTable base index.constIntValue).1) ∧
      (⟨ErrKind.arrayIndexOutOfRange, loc⟩ : Diag) ∉
        (handleBracketDereference ctx loc base index).2.2) := by
  obtain ⟨hb1, hb2, hb3⟩ := variableCheck_nonvoid ctx loc base hvoid
  have hbarr : base.isArray = true := harr
  have hcond1 : ¬¬(base.isArray = true ∨ base.isMatrix = true ∨ base.isVector = true) := by
    simp [hbarr]
  have hcond2 : ¬(base.getType.qualifier.storage = .EvqConst ∧
      index.getQualifier.storage = .EvqConst) := fun hc => hnc hc.1
  have hd2empty : ¬(base.isArray = false ∧
      ((base.isVector = true ∧ (base.getType.vectorSize : Int) ≤ index.constIntValue) ∨
       (base.isMatrix = true ∧ (base.getType.matrixCols : Int) ≤ index.constIntValue))) := by
    rintro ⟨hfalse, _⟩
    rw [hbarr] at hfalse
    exact absurd hfalse (by simp)
  by_cases hsize : base.getType.getArraySize = 0
  · have hraw : handleBracketDereferenceRaw ctx loc base index =
        (some (.binary .EOpIndexDirect base index base.getType), base,
         { ctx with symbolTable :=
            (updateMaxArraySize loc ctx.symbolTable base index.constIntValue).1 },
         (variableCheck ctx loc base).2.2 ++ [] ++
           (updateMaxArraySize loc ctx.symbolTable base index.constIntValue).2) := by
      simp only [handleBracketDereferenceRaw]
      rw [hb1, hb2]
      rw [if_neg hcond1, if_neg hcond2, if_pos hic, if_neg hd2empty,
        if_pos ⟨hbarr, hsize⟩]
    refine ⟨?_, fun hpos => absurd hsize (by omega), fun _ => ⟨?_, ?_⟩⟩
    · refine ⟨?_, ?_⟩
      · exact (if base.getType.qualifier.storage = .EvqConst ∧
          index.getQualifier.storage = .EvqConst then
            base.getType.withStorage .EvqConst else base.getType).dereference
      · simp only [handleBracketDereference, hraw]
        rfl
    · simp only [handleBracketDereference, hraw]
      split_ifs <;> rfl
    · simp only [handleBracketDereference, hraw]
      intro hmem
      rcases List.mem_append.mp hmem with hmem | hmem
      · rcases List.mem_append.mp hmem with hmem | hmem
        · exact absurd (hb3 _ hmem) (by simp)
        · simp at hmem
      · exact absurd (updateMaxArraySize_kind loc ctx.symbolTable base
          index.constIntValue _ hmem) (by simp)
  · have hpos : 0 < base.getType.getArraySize := Nat.pos_of_ne_zero hsize
    have hnotunsized : ¬(base.isArray = true ∧ base.getType.getArraySize = 0) :=
      fun hc => hsize hc.2
    by_cases hk : (base.getType.getArraySize : Int) ≤ index.constIntValue ∨
        index.constIntValue < 0
    · have hraw : handleBracketDereferenceRaw ctx loc base index =
          (some (.binary .EOpIndexDirect base index base.getType), base, ctx,
           (variableCheck ctx loc base).2.2 ++ [] ++
             [⟨.arrayIndexOutOfRange, loc⟩]) := by
        simp only [handleBracketDereferenceRaw]
        rw [hb1, hb2]
        rw [if_neg hcond1, if_neg hcond2, if_pos hic, if_neg hd2empty,
          if_neg hnotunsized, if_pos ⟨hbarr, hk⟩]
      refine ⟨?_, fun _ => ⟨?_, ?_⟩, fun hz => absurd hz hsize⟩
      · refine ⟨(if base.getType.qualifier.storage = .EvqConst ∧
            index.getQualifier.storage = .EvqConst then
              base.getType.withStorage .EvqConst else base.getType).dereference, ?_⟩
        simp only [handleBracketDereference, hraw]
        rfl
      · simp only [handleBracketDereference, hraw]
        split_ifs <;> rfl
      · simp only [handleBracketDereference, hraw]
        apply iff_of_true _ (by omega)
        exact List.mem_append.mpr (Or.inr (by simp))
    · have hraw : handleBracketDereferenceRaw ctx loc base index =
          (some (.binary .EOpIndexDirect base index base.getType), base, ctx,
           (variableCheck ctx loc base).2.2 ++ []) := by
        simp only [handleBracketDereferenceRaw]
        rw [hb1, hb2]
        rw [if_neg hcond1, if_neg hcond2, if_pos hic, if_neg hd2empty,
          if_neg hnotunsized, if_neg (fun hc => hk hc.2)]
      refine ⟨?_, fun _ => ⟨?_, ?_⟩, fun hz => absurd hz hsize⟩
      · refine ⟨(if base.getType.qualifier.storage = .EvqConst ∧
            index.getQualifier.storage = .EvqConst then
              base.getType.withStorage .EvqConst else base.getType).dereference, ?_⟩
        simp only [handleBracketDereference, hraw]
        rfl
      · simp only [handleBracketDereference, hraw]
        split_ifs <;> rfl
      · simp only [handleBracketDereference, hraw]
        apply iff_of_false _ (by omega)
        intro hmem
        rcases List.mem_append.mp hmem with hmem | hmem
        · exact absurd (hb3 _ hmem) (by simp)
        · simp at hmem

/-- Witness for `handleBracketDereference_constIndex_spec`: indexing a
non-const `float[4]` with the constant 5 yields an IndexDirect node and
the out-of-range error. -/
theorem handleBracketDereference_constIndex_spec_witness :
    (∃ ty, (handleBracketDereference
        ⟨110, .ECoreProfile, .EShLangVertex, ⟨true, true, true, true, true, true⟩,
         false, ⟨[], 0⟩, []⟩ ⟨0, 1⟩
        (.symbol 3 "a" floatArray4Type)
        (.constantUnion [.iconst 5] intConstType)).1 =
      .binary .EOpIndexDirect (.symbol 3 "a" floatArray4Type)
        (.constantUnion [.iconst 5] intConstType) ty) ∧
    ((⟨ErrKind.arrayIndexOutOfRange, ⟨0, 1⟩⟩ : Diag) ∈
      (handleBracketDereference
        ⟨110, .ECoreProfile, .EShLangVertex, ⟨true, true, true, true, true, true⟩,
         false, ⟨[], 0⟩, []⟩ ⟨0, 1⟩
        (.symbol 3 "a" floatArray4Type)
        (.constantUnion [.iconst 5] intConstType)).2.2) := by
  have h := handleBracketDereference_constIndex_spec
    ⟨110, .ECoreProfile, .EShLangVertex, ⟨true, true, true, true, true, true⟩,
     false, ⟨[], 0⟩, []⟩ ⟨0, 1⟩
    (.symbol 3 "a" floatArray4Type)
    (.constantUnion [.iconst 5] intConstType)
    (by decide) (by decide) (by decide) (by decide)
  exact ⟨h.1, ((h.2.1 (by decide)).2).mpr (by decide)⟩

/-- C9: expression handlers recover with typed placeholders —
`handleVariable` always produces a node; on every null-result path of
`handleBracketDereference` and `handleFunctionCall` the returned node is
the const-float-zero recovery constant; and `variableCheck` replaces a
void-typed (undeclared) symbol by a freshly inserted float-typed dummy
variable. -/
theorem expressionRecovery_spec :
    (∀ (loc : TSourceLoc) (symbol : Option TSymbol) (string : String),
      (handleVariable loc symbol string).1.isSome = true) ∧
    (∀ (ctx : ParseContext) (loc : TSourceLoc) (base index : TIntermNode),
      (handleBracketDereferenceRaw ctx loc base index).1 = none →
      (handleBracketDereference ctx loc base index).1 = recoveryFloatZero) ∧
    (∀ (ctx : ParseContext) (loc : TSourceLoc) (fnCall : TFunction)
      (intermNode intermAggregate : Option TIntermNode) fB fC,
      (handleFunctionCallCore ctx loc fnCall intermNode intermAggregate fB fC).1 =
        none →
      (handleFunctionCall ctx loc fnCall intermNode intermAggregate fB fC).1 =
        recoveryFloatZero) ∧
    (∀ (ctx : ParseContext) (loc : TSourceLoc) (id : Nat) (name : String) (ty : TType),
      ty.basicType = .EbtVoid →
      (variableCheck ctx loc (.symbol id name ty)).1 =
        .symbol ctx.symbolTable.nextId name floatTempType ∧
      (variableCheck ctx loc (.symbol id name ty)).2.1.symbolTable.entries =
        (name, .varSym ctx.symbolTable.nextId name floatTempType [] false) ::
          ctx.symbolTable.entries) := by
  refine ⟨?_, ?_, ?_, ?_⟩
  · intro loc symbol string
    match symbol with
    | none => rfl
    | some (.anonSym cid cname cty member) => rfl
    | some (.funcSym nm mn op rt ps ro) => rfl
    | some (.varSym id nm ty ca ro) =>
      simp only [handleVariable]
      split_ifs <;> rfl
  · intro ctx loc base index h
    rcases hraw : handleBracketDereferenceRaw ctx loc base index with ⟨r, b, c, d⟩
    rw [hraw] at h
    dsimp at h
    subst h
    simp [handleBracketDereference, hraw]
  · intro ctx loc fnCall intermNode intermAggregate fB fC h
    rcases hcore : handleFunctionCallCore ctx loc fnCall intermNode intermAggregate
      fB fC with ⟨r, ds⟩
    rw [hcore] at h
    dsimp at h
    subst h
    simp [handleFunctionCall, hcore]
  · intro ctx loc id name ty h
    simp only [variableCheck, TIntermNode.getAsSymbolNode]
    rw [if_pos h]
    exact ⟨rfl, rfl⟩

/-- Witness for `expressionRecovery_spec`: checking the undeclared
void-typed identifier `foo` substitutes a fresh float-typed dummy. -/
theorem expressionRecovery_spec_witness :
    (variableCheck
      ⟨100, .EEsProfile, .EShLangVertex, ⟨true, true, true, true, true, true⟩,
       false, ⟨[], 5⟩, []⟩ ⟨0, 1⟩ (.symbol 9 "foo" voidType)).1 =
      .symbol 5 "foo" floatTempType :=
  (expressionRecovery_spec.2.2.2
    ⟨100, .EEsProfile, .EShLangVertex, ⟨true, true, true, true, true, true⟩,
     false, ⟨[], 5⟩, []⟩ ⟨0, 1⟩ 9 "foo" voidType rfl).1

end Glslang
